import Mathlib

/-! Job board API: record store and request handlers.

A shallow embedding of `src/backend/server.js`.  The three collections of the
document store are lists in insertion order, every handler is a function from
the store and the request to the response and the store afterwards.

A text field of a JSON body is `Option String` (absent, or a text which may be
empty) and a path parameter is the raw path segment.  Two handlers pass values of
the body on unchecked, and their bodies are modelled accordingly: the login body
holds values that may be query-operator objects, and the job body holds every path
the document is built from, `_id` included.  Failures of the connection to the
database are outside the model.
-/

namespace JobBoard

/-! ## Identifiers -/

/-- A document id: the number spelled by the 24 hexadecimal digits of an ObjectId. -/
abbrev ObjectId := Nat

/-- Value of one hexadecimal digit, upper or lower case. -/
def hexDigit? (c : Char) : Option Nat :=
  if 48 ≤ c.toNat ∧ c.toNat ≤ 57 then some (c.toNat - 48)
  else if 97 ≤ c.toNat ∧ c.toNat ≤ 102 then some (c.toNat - 87)
  else if 65 ≤ c.toNat ∧ c.toNat ≤ 70 then some (c.toNat - 55)
  else none

/-- Value of a run of hexadecimal digits, most significant first. -/
def hexValue? : List Char → Nat → Option Nat
  | [], acc => some acc
  | c :: cs, acc =>
    match hexDigit? c with
    | some d => hexValue? cs (16 * acc + d)
    | none => none

/-- The cast every query and every document applies to a text standing where the schema
declares `mongoose.Schema.Types.ObjectId`: a text of 24 hexadecimal digits is an id, any
other text is a cast failure. -/
def castObjectId (raw : String) : Option ObjectId :=
  if raw.data.length = 24 then hexValue? raw.data 0 else none

/-- The character of one hexadecimal digit (lower case). -/
def hexChar (d : Nat) : Char :=
  if d < 10 then Char.ofNat (48 + d) else Char.ofNat (87 + d)

/-- The `width` least significant hexadecimal digits of `n`, most significant first. -/
def hexDigits : Nat → Nat → List Char
  | 0, _ => []
  | width + 1, n => hexDigits width (n / 16) ++ [hexChar (n % 16)]

/-- The text an id has in a JSON response and in a request path. -/
def toHexString (id : ObjectId) : String := ⟨hexDigits 24 id⟩

/-! ## Data model (`userSchema`, `jobSchema`, `applicationSchema`) -/

/-- The two values `userSchema` admits for `role`. -/
inductive Role
  | employer
  | candidate
deriving DecidableEq, Repr

/-- The text of a role. -/
def Role.text : Role → String
  | .employer => "employer"
  | .candidate => "candidate"

/-- The enum validator of `userSchema.role`. -/
def parseRole (raw : String) : Option Role :=
  if raw = "employer" then some .employer
  else if raw = "candidate" then some .candidate
  else none

/-- A stored `User` document. -/
structure User where
  _id : ObjectId
  name : String
  email : String
  password : String
  role : Role
deriving DecidableEq, Repr

/-- A stored `Job` document. -/
structure Job where
  _id : ObjectId
  title : String
  company : String
  location : String
  type : String
  description : String
  responsibilities : List String
  qualifications : List String
  salary : Option String
  postedDate : Nat
  postedBy : Option ObjectId
deriving DecidableEq, Repr

/-- A stored `Application` document. -/
structure Application where
  _id : ObjectId
  job : ObjectId
  candidate : ObjectId
  name : Option String
  email : Option String
  resume : Option String
  appliedAt : Nat
deriving DecidableEq, Repr

/-- The record store: the three collections, each in insertion order. -/
structure Store where
  users : List User
  jobs : List Job
  applications : List Application
deriving DecidableEq, Repr

/-- The store before any request. -/
def Store.empty : Store := ⟨[], [], []⟩

/-- Every id held by some document of the store. -/
def Store.ids (s : Store) : List ObjectId :=
  s.users.map (·._id) ++ s.jobs.map (·._id) ++ s.applications.map (·._id)

/-- The id a new document receives.  The driver's generator yields an id no stored
document has; here it is the successor of the largest id in the store. -/
def freshId (s : Store) : ObjectId := s.ids.foldr max 0 + 1

/-! ## Responses -/

/-- The user object of the signup and login responses, and a `User` selected with
`'-password'`: there is no password field. -/
structure UserView where
  _id : ObjectId
  name : String
  email : String
  role : String
deriving DecidableEq, Repr

/-- A candidate populated with `'name email'`. -/
structure CandidateView where
  _id : ObjectId
  name : String
  email : String
deriving DecidableEq, Repr

/-- An `Application` after `.populate('candidate', 'name email')`; the candidate is
`none` (JSON null) when no `User` has the referenced id. -/
structure PopulatedApplication where
  _id : ObjectId
  job : ObjectId
  candidate : Option CandidateView
  name : Option String
  email : Option String
  resume : Option String
  appliedAt : Nat
deriving DecidableEq, Repr

/-- One entry of the applicant pool: the populated candidate with its `jobs`. -/
structure Applicant where
  _id : ObjectId
  name : String
  email : String
  jobs : List ObjectId
deriving DecidableEq, Repr

/-- A value of the login body where the handler expects a text, as far as the model goes:
a text, or the query-operator object with the one key `$ne` whose operand is a text or
null.  The handler hands the value to the filter of `User.findOne` as it came. -/
inductive FieldValue
  | text (value : String)
  | ne (operand : Option String)
deriving DecidableEq, Repr

/-- Whether a stored text satisfies the filter condition a value stands for: a text is
satisfied by that very text only; `$ne` is satisfied by every stored text other than its
operand, and by every stored text when the operand is null. -/
def FieldValue.satisfiedBy (v : FieldValue) (stored : String) : Bool :=
  match v with
  | .text value => decide (stored = value)
  | .ne none => true
  | .ne (some operand) => decide (stored ≠ operand)

/-- The user object of the login response: `email` is the value of the request body. -/
structure LoginView where
  _id : ObjectId
  name : String
  email : FieldValue
  role : String
deriving DecidableEq, Repr

/-- What a handler can throw into its `catch`. -/
inductive StoreError
  | castError (path : String) (value : String)
  | validationError (model : String) (paths : List String)
  | duplicateKey (collection : String) (id : ObjectId)
  | typeError
deriving DecidableEq, Repr

/-- The `error.message` passed through by the `catch` blocks (the library's wording is
abbreviated). -/
def StoreError.message : StoreError → String
  | .castError path value => "Cast to ObjectId failed for value " ++ value ++ " at path " ++ path
  | .validationError model paths => model ++ " validation failed: " ++ ", ".intercalate paths
  | .duplicateKey collection id =>
    "E11000 duplicate key error collection: " ++ collection ++ " dup key: " ++ toString id
  | .typeError => "Cannot read properties of null (reading _id)"

/-- The JSON document of a response. -/
inductive Body
  | message (message : String)
  | auth (message : String) (user : UserView)
  | loggedIn (message : String) (user : LoginView)
  | applied (message : String) (application : Application)
  | job (job : Job)
  | jobs (jobs : List Job)
  | users (users : List UserView)
  | applications (applications : List PopulatedApplication)
  | applicants (entries : List Applicant)
deriving DecidableEq, Repr

/-- A response: HTTP status and JSON body. -/
structure Response where
  status : Nat
  body : Body
deriving DecidableEq, Repr

/-- The response of a `catch (error)` block answering with `code`. -/
def failure (code : Nat) (error : StoreError) : Response := ⟨code, .message error.message⟩

/-! ## Requests -/

/-- Body of `POST /api/auth/signup`. -/
structure SignupBody where
  name : Option String
  email : Option String
  password : Option String
  role : Option String
deriving DecidableEq, Repr

/-- Body of `POST /api/auth/login`: the form sends two texts, but the handler takes the two
values of the JSON body as they are. -/
structure LoginBody where
  email : FieldValue
  password : FieldValue
deriving DecidableEq, Repr

/-- Body of `POST /api/jobs`, from which `new Job(req.body)` builds the document: every
path of `jobSchema`, and `_id`, which the document takes from the body when it is there.
The last two are not sent by the form; `postedDate` is a JSON number of milliseconds. -/
structure JobBody where
  title : Option String
  company : Option String
  location : Option String
  type : Option String
  description : Option String
  responsibilities : List String
  qualifications : List String
  salary : Option String
  postedBy : Option String
  _id : Option String
  postedDate : Option Nat
deriving DecidableEq, Repr

/-- Body of `POST /api/jobs/:id/apply`. -/
structure ApplyBody where
  name : Option String
  email : Option String
  resume : Option String
  candidateId : Option String
deriving DecidableEq, Repr

/-! ## Queries -/

/-- `User.findOne` by `email`. -/
def findUserByEmail (s : Store) (email : String) : Option User :=
  s.users.find? (fun u => decide (u.email = email))

/-- `User.findOne` with the filter made of the `email` and `password` of the body: the
first user whose email and password satisfy the two conditions. -/
def findUserByCredentials (s : Store) (email password : FieldValue) : Option User :=
  s.users.find? (fun u => email.satisfiedBy u.email && password.satisfiedBy u.password)

/-- `Job.findById(req.params.id)`: the path segment is cast to an id first, and a
segment that is no id throws. -/
def findJobById (s : Store) (id : String) : Except StoreError (Option Job) :=
  match castObjectId id with
  | none => .error (.castError "_id" id)
  | some j => .ok (s.jobs.find? (fun job => decide (job._id = j)))

/-- A `User` without its password. -/
def User.view (u : User) : UserView := ⟨u._id, u.name, u.email, u.role.text⟩

/-- `User.find` by `role`, selecting `'-password'`. -/
def findUsersByRole (s : Store) (role : Role) : List UserView :=
  (s.users.filter (fun u => decide (u.role = role))).map User.view

/-- The `'name email'` projection of the `User` with the given id, if there is one. -/
def candidateView (s : Store) (candidate : ObjectId) : Option CandidateView :=
  (s.users.find? (fun u => decide (u._id = candidate))).map (fun u => ⟨u._id, u.name, u.email⟩)

/-- `.populate('candidate', 'name email')` on one application. -/
def populateCandidate (s : Store) (a : Application) : PopulatedApplication :=
  ⟨a._id, a.job, candidateView s a.candidate, a.name, a.email, a.resume, a.appliedAt⟩

/-! ## Handlers -/

/-- `POST /api/auth/signup`. -/
def signup (s : Store) (body : SignupBody) : Response × Store :=
  match body.name, body.email, body.password, body.role with
  | some name, some email, some password, some role =>
    if name = "" ∨ email = "" ∨ password = "" ∨ role = "" then
      (⟨400, .message "All fields required"⟩, s)
    else
      match findUserByEmail s email with
      | some _ => (⟨400, .message "Email already registered"⟩, s)
      | none =>
        match parseRole role with
        | none => (failure 500 (.validationError "User" ["role"]), s)
        | some r =>
          let user : User := ⟨freshId s, name, email, password, r⟩
          (⟨201, .auth "Signup successful" ⟨user._id, name, email, role⟩⟩,
            { s with users := s.users ++ [user] })
  | _, _, _, _ => (⟨400, .message "All fields required"⟩, s)

/-- `POST /api/auth/login`. -/
def login (s : Store) (body : LoginBody) : Response × Store :=
  match findUserByCredentials s body.email body.password with
  | none => (⟨401, .message "Invalid credentials"⟩, s)
  | some user =>
    (⟨200, .loggedIn "Login successful" ⟨user._id, user.name, body.email, user.role.text⟩⟩, s)

/-- `POST /api/jobs/:id/apply`; `now` is `Date.now` at the request. -/
def applyToJob (s : Store) (now : Nat) (id : String) (body : ApplyBody) : Response × Store :=
  match findJobById s id with
  | .error e => (failure 500 e, s)
  | .ok none => (⟨404, .message "Job not found"⟩, s)
  | .ok (some job) =>
    match body.candidateId.bind castObjectId with
    | none => (failure 500 (.validationError "Application" ["candidate"]), s)
    | some candidate =>
      let application : Application :=
        ⟨freshId s, job._id, candidate, body.name, body.email, body.resume, now⟩
      (⟨201, .applied "Application submitted" application⟩,
        { s with applications := s.applications ++ [application] })

/-- `GET /api/jobs/:id/applications`. -/
def listApplications (s : Store) (id : String) : Response × Store :=
  match findJobById s id with
  | .error e => (failure 500 e, s)
  | .ok none => (⟨404, .message "Job not found"⟩, s)
  | .ok (some job) =>
    (⟨200, .applications
      ((s.applications.filter (fun a => decide (a.job = job._id))).map (populateCandidate s))⟩, s)

/-- The paths of a job body that fail `jobSchema`: a required text that is absent or
empty, a `postedBy` or an `_id` that is no id. -/
def JobBody.invalidPaths (b : JobBody) : List String :=
  let required (path : String) (v : Option String) : List String :=
    match v with
    | some text => if text = "" then [path] else []
    | none => [path]
  let objectId (path : String) (v : Option String) : List String :=
    match v with
    | some raw => if (castObjectId raw).isNone then [path] else []
    | none => []
  required "title" b.title ++ required "company" b.company ++ required "location" b.location
    ++ required "type" b.type ++ required "description" b.description
    ++ objectId "postedBy" b.postedBy ++ objectId "_id" b._id

/-- `POST /api/jobs`; `now` is `Date.now` at the request.  The document is built from the
whole body: it keeps the `_id` and the `postedDate` of the body when they are there, and
otherwise gets a generated id and `now`.  `save` validates it and inserts it; the insert
of an `_id` some stored job already has fails with a duplicate key.  Whatever is thrown,
the catch answers 400. -/
def createJob (s : Store) (now : Nat) (body : JobBody) : Response × Store :=
  if body.invalidPaths = [] then
    let newJob : Job :=
      { _id := (body._id.bind castObjectId).getD (freshId s)
        title := body.title.getD ""
        company := body.company.getD ""
        location := body.location.getD ""
        type := body.type.getD ""
        description := body.description.getD ""
        responsibilities := body.responsibilities
        qualifications := body.qualifications
        salary := body.salary
        postedDate := body.postedDate.getD now
        postedBy := body.postedBy.bind castObjectId }
    if s.jobs.any (fun job => decide (job._id = newJob._id)) then
      (failure 400 (.duplicateKey "jobs" newJob._id), s)
    else
      (⟨201, .job newJob⟩, { s with jobs := s.jobs ++ [newJob] })
  else
    (failure 400 (.validationError "Job" body.invalidPaths), s)

/-- `GET /api/jobs`. -/
def listJobs (s : Store) : Response × Store := (⟨200, .jobs s.jobs⟩, s)

/-- `GET /api/jobs/:id`. -/
def getJob (s : Store) (id : String) : Response × Store :=
  match findJobById s id with
  | .error e => (failure 500 e, s)
  | .ok none => (⟨404, .message "Job not found"⟩, s)
  | .ok (some job) => (⟨200, .job job⟩, s)

/-- `GET /api/employers`. -/
def listEmployers (s : Store) : Response × Store := (⟨200, .users (findUsersByRole s .employer)⟩, s)

/-- `GET /api/candidates`. -/
def listCandidates (s : Store) : Response × Store := (⟨200, .users (findUsersByRole s .candidate)⟩, s)

/-- The statement `candidates[key].jobs.push(job)` seen from one key/value pair of the
object: the pair under `key` gets `job` appended, any other pair is untouched. -/
def pushJob (key job : ObjectId) (kv : ObjectId × Applicant) : ObjectId × Applicant :=
  if kv.1 = key then (kv.1, { kv.2 with jobs := kv.2.jobs ++ [job] }) else kv

/-- One round of the `applications.forEach` of the applicant pool.  `candidates` is the
object being filled, as its key/value pairs in insertion order (its keys are the 24-digit
texts of ids, none of them an array index, so `Object.values` lists the values in insertion
order); reading `_id` of a candidate that populated to null throws. -/
def groupStep (candidates : List (ObjectId × Applicant)) (app : PopulatedApplication) :
    Except StoreError (List (ObjectId × Applicant)) :=
  match app.candidate with
  | none => .error .typeError
  | some c =>
    let candidates :=
      if candidates.any (fun kv => decide (kv.1 = c._id)) then candidates
      else candidates ++ [(c._id, ⟨c._id, c.name, c.email, []⟩)]
    .ok (candidates.map (pushJob c._id app.job))

/-- The whole `applications.forEach`. -/
def groupByCandidate :
    List (ObjectId × Applicant) → List PopulatedApplication →
      Except StoreError (List (ObjectId × Applicant))
  | candidates, [] => .ok candidates
  | candidates, app :: rest =>
    match groupStep candidates app with
    | .error e => .error e
    | .ok candidates => groupByCandidate candidates rest

/-- The applications the applicant pool groups: those to a job posted by `employer`. -/
def applicationsOfEmployer (s : Store) (employer : ObjectId) : List Application :=
  let jobs := s.jobs.filter (fun j => decide (j.postedBy = some employer))
  let jobIds := jobs.map (·._id)
  s.applications.filter (fun a => decide (a.job ∈ jobIds))

/-- `GET /api/employer/:employerId/applicants`. -/
def employerApplicants (s : Store) (employerId : String) : Response × Store :=
  match castObjectId employerId with
  | none => (failure 500 (.castError "postedBy" employerId), s)
  | some employer =>
    let applications := (applicationsOfEmployer s employer).map (populateCandidate s)
    match groupByCandidate [] applications with
    | .error e => (failure 500 e, s)
    | .ok candidates => (⟨200, .applicants (candidates.map (·.2))⟩, s)

/-- A request text that `!field` rejects, and that a `required` validator rejects: absent,
or present and empty. -/
def absentOrEmpty (v : Option String) : Prop := v = none ∨ v = some ""

instance (v : Option String) : Decidable (absentOrEmpty v) := by
  unfold absentOrEmpty; infer_instance

/-! ## Specification-side definitions for the applicant pool -/

/-- First-occurrence de-duplication: every id once, at the place of its first occurrence. -/
def firstOccurrences : List ObjectId → List ObjectId
  | [] => []
  | x :: xs => x :: (firstOccurrences xs).filter (fun y => decide (y ≠ x))

/-- The job ids of the applications of `candidate` among `apps`, in application order, one
per application. -/
def jobsOf (apps : List Application) (candidate : ObjectId) : List ObjectId :=
  (apps.filter (fun a => decide (a.candidate = candidate))).map (·.job)

/-- The pool entry the specification describes for `candidate`: the id, the name and email
of the stored user with that id, and the jobs applied to among `apps`. -/
def specApplicant (s : Store) (apps : List Application) (candidate : ObjectId) : Applicant :=
  ⟨candidate,
    ((s.users.find? (fun u => decide (u._id = candidate))).map (·.name)).getD "",
    ((s.users.find? (fun u => decide (u._id = candidate))).map (·.email)).getD "",
    jobsOf apps candidate⟩

/-- A key/value pair of the pool object with the jobs of its key among `apps` appended. -/
def withJobs (apps : List Application) (kv : ObjectId × Applicant) : ObjectId × Applicant :=
  (kv.1, { kv.2 with jobs := kv.2.jobs ++ jobsOf apps kv.1 })

/-! ## The API as a whole -/

/-- One request to the API: the route with its path parameter and body; for the two
routes that stamp a date, `now` is `Date.now` at the request. -/
inductive Request
  | signup (body : SignupBody)
  | login (body : LoginBody)
  | createJob (now : Nat) (body : JobBody)
  | applyToJob (now : Nat) (id : String) (body : ApplyBody)
  | listApplications (id : String)
  | listJobs
  | getJob (id : String)
  | listEmployers
  | listCandidates
  | employerApplicants (employerId : String)
deriving DecidableEq, Repr

/-- The router: the handler of the route of the request. -/
def handle (s : Store) : Request → Response × Store
  | .signup body => signup s body
  | .login body => login s body
  | .createJob now body => createJob s now body
  | .applyToJob now id body => applyToJob s now id body
  | .listApplications id => listApplications s id
  | .listJobs => listJobs s
  | .getJob id => getJob s id
  | .listEmployers => listEmployers s
  | .listCandidates => listCandidates s
  | .employerApplicants employerId => employerApplicants s employerId

/-- The store after a finite sequence of requests, served one after the other. -/
def run (s : Store) : List Request → Store
  | [] => s
  | req :: rest => run (handle s req).2 rest

/-- The read operations (the six `GET` routes) and login. -/
def Request.isRead : Request → Bool
  | .signup _ => false
  | .createJob _ _ => false
  | .applyToJob _ _ _ => false
  | _ => true

/-! ## Client application (`src/frontend/src/App.jsx`) -/

/-- The view state of `App`: one field per `useState`. -/
structure AppState where
  currentPage : String
  selectedJob : Option Job
  jobs : List Job
  isLoading : Bool
  error : Option String
  user : Option UserView
  showAuth : Bool
  authMode : String
deriving DecidableEq, Repr

/-- `text.includes(search)` on the characters of the two texts: `search` starts at some
position of `text`. -/
def includesChars : List Char → List Char → Bool
  | [], search => search.isEmpty
  | c :: cs, search => search.isPrefixOf (c :: cs) || includesChars cs search

/-- `text.includes(search)`. -/
def includes (text search : String) : Bool := includesChars text.data search.data

/-- `handleSearch(query)`: the `jobs.filter` with its three tests, then `setJobs` and
`setCurrentPage('listings')`.  `toLowerCase` is the built-in `String.prototype.toLowerCase`. -/
def handleSearch (toLowerCase : String → String) (st : AppState) (query : String) : AppState :=
  let filteredJobs := st.jobs.filter (fun job =>
    includes (toLowerCase job.title) (toLowerCase query) ||
    includes (toLowerCase job.company) (toLowerCase query) ||
    includes (toLowerCase job.location) (toLowerCase query))
  { st with jobs := filteredJobs, currentPage := "listings" }

/-- The class `\d` of a regular expression: the ten ASCII digits. -/
def isDigit (c : Char) : Bool := decide (48 ≤ c.toNat ∧ c.toNat ≤ 57)

/-- `salary.replace(/[^\d]/g, '')`: every character that is no digit is deleted. -/
def stripNonDigits (salary : String) : String := ⟨salary.data.filter isDigit⟩

/-- A number value, as far as `formatSalary` can produce one: not-a-number, a
non-negative integer that is a double, or infinity. -/
inductive JSNumber
  | nan
  | finite (value : Nat)
  | infinity
deriving DecidableEq, Repr

/-- The number value of a non-negative integer: itself below 2^53, otherwise the nearest
integer with a 53-bit significand (ties to even), and infinity from 2^1024 on. -/
def roundToDouble (n : Nat) : JSNumber :=
  if n < 2 ^ 53 then .finite n
  else
    let e := Nat.log2 n - 52
    let q := n / 2 ^ e
    let r := n % 2 ^ e
    let half := 2 ^ (e - 1)
    let q := if half < r ∨ (r = half ∧ q % 2 = 1) then q + 1 else q
    if 2 ^ 1024 ≤ q * 2 ^ e then .infinity else .finite (q * 2 ^ e)

/-- The value of a run of decimal digits read from the left. -/
def decimalValue (digits : List Char) : Nat :=
  digits.foldl (fun acc c => 10 * acc + (c.toNat - 48)) 0

/-- `parseInt(text)` for a text without leading whitespace, sign or radix prefix, which is
what `stripNonDigits` leaves: the leading run of decimal digits is read as an integer, and
an empty run gives not-a-number. -/
def parseInt (text : String) : JSNumber :=
  let digits := text.data.takeWhile isDigit
  if digits = [] then .nan else roundToDouble (decimalValue digits)

/-- `formatSalary(salary)`; `format` is the `format` of
`Intl.NumberFormat('en-IN', ...)`.  An absent salary has no `replace`, the call throws. -/
def formatSalary (format : JSNumber → String) (salary : Option String) : Except String String :=
  match salary with
  | none => .error "TypeError: Cannot read properties of undefined (reading 'replace')"
  | some text => .ok (format (parseInt (stripNonDigits text)))

/-- The characters `String.prototype.trim` removes: white space and line terminators. -/
def isWhiteSpace (c : Char) : Bool :=
  decide (c.toNat ∈ [9, 10, 11, 12, 13, 32, 160, 5760, 8232, 8233, 8239, 8287, 12288, 65279])
    || decide (8192 ≤ c.toNat ∧ c.toNat ≤ 8202)

/-- `s.trim()` on the characters of `s`. -/
def trimChars (cs : List Char) : List Char :=
  ((cs.dropWhile isWhiteSpace).reverse.dropWhile isWhiteSpace).reverse

/-- `s.trim()`. -/
def trim (s : String) : String := ⟨trimChars s.data⟩

/-- `text.split('\n')` on the characters of `text`: the pieces between the line feeds, at
least one piece. -/
def splitLines : List Char → List (List Char)
  | [] => [[]]
  | c :: cs =>
    if c = '\n' then [] :: splitLines cs
    else
      match splitLines cs with
      | [] => [[c]]
      | piece :: pieces => (c :: piece) :: pieces

/-- `field.split('\n').map(s => s.trim()).filter(Boolean)`. -/
def fieldLines (field : String) : List String :=
  ((splitLines field.data).map (fun piece => trim ⟨piece⟩)).filter (fun s => decide (s ≠ ""))

/-- The `form` state of `JobPostPage`: eight texts. -/
structure JobForm where
  title : String
  company : String
  location : String
  type : String
  description : String
  responsibilities : String
  qualifications : String
  salary : String
deriving DecidableEq, Repr

/-- The body `JobPostPage.handleSubmit` sends to `POST /api/jobs`. -/
def jobPostBody (form : JobForm) (user : UserView) : JobBody :=
  { title := some form.title
    company := some form.company
    location := some form.location
    type := some form.type
    description := some form.description
    responsibilities := fieldLines form.responsibilities
    qualifications := fieldLines form.qualifications
    salary := some form.salary
    postedBy := some (toHexString user._id)
    _id := none
    postedDate := none }

/-- The spec's reading of "the digits in their original order": the value of a sequence
of decimal digits, the last one counting units. -/
def digitsNumber : List Nat → Nat
  | [] => 0
  | d :: ds => d * 10 ^ ds.length + digitsNumber ds

/-! ## Lemmas on the queries -/

theorem findUserByEmail_of_mem (s : Store) (email : String)
    (h : ∃ u ∈ s.users, u.email = email) : ∃ u, findUserByEmail s email = some u := by
  obtain ⟨u, hu, he⟩ := h
  cases hf : findUserByEmail s email with
  | some v => exact ⟨v, rfl⟩
  | none =>
    unfold findUserByEmail at hf
    rw [List.find?_eq_none] at hf
    have := hf u hu
    simp [he] at this

theorem findUserByCredentials_some (s : Store) (email password : FieldValue) (u : User)
    (h : findUserByCredentials s email password = some u) :
    u ∈ s.users ∧ email.satisfiedBy u.email = true ∧ password.satisfiedBy u.password = true := by
  unfold findUserByCredentials at h
  have h1 := List.find?_some h
  have h2 := List.mem_of_find?_eq_some h
  simp at h1
  exact ⟨h2, h1.1, h1.2⟩

theorem findUserByCredentials_none (s : Store) (email password : FieldValue) :
    findUserByCredentials s email password = none ↔
      ¬ ∃ u ∈ s.users, email.satisfiedBy u.email = true ∧ password.satisfiedBy u.password = true := by
  unfold findUserByCredentials
  rw [List.find?_eq_none]
  simp

theorem satisfiedBy_text (value stored : String) :
    (FieldValue.text value).satisfiedBy stored = true ↔ stored = value := by
  simp [FieldValue.satisfiedBy]

theorem findJobById_cast (s : Store) (id : String) (j : ObjectId)
    (h : castObjectId id = some j) :
    findJobById s id = .ok (s.jobs.find? (fun job => decide (job._id = j))) := by
  simp [findJobById, h]

theorem findJob_none (s : Store) (j : ObjectId) (h : ∀ job ∈ s.jobs, job._id ≠ j) :
    s.jobs.find? (fun job => decide (job._id = j)) = none := by
  rw [List.find?_eq_none]
  intro job hjob
  simpa using h job hjob

theorem findJob_some (s : Store) (j : ObjectId) (h : ∃ job ∈ s.jobs, job._id = j) :
    ∃ job, s.jobs.find? (fun job => decide (job._id = j)) = some job ∧ job._id = j
      ∧ job ∈ s.jobs := by
  cases hf : s.jobs.find? (fun job => decide (job._id = j)) with
  | some job =>
    refine ⟨job, rfl, ?_, List.mem_of_find?_eq_some hf⟩
    simpa using List.find?_some hf
  | none =>
    obtain ⟨job, hjob, hid⟩ := h
    rw [List.find?_eq_none] at hf
    have := hf job hjob
    simp [hid] at this

theorem le_foldr_max (l : List Nat) : ∀ x ∈ l, x ≤ l.foldr max 0 := by
  induction l with
  | nil => simp
  | cons a l ih =>
    intro x hx
    simp only [List.foldr_cons]
    rcases List.mem_cons.mp hx with rfl | h
    · exact le_max_left _ _
    · exact le_trans (ih x h) (le_max_right _ _)

theorem lt_freshId (s : Store) : ∀ x ∈ s.ids, x < freshId s := fun x hx =>
  Nat.lt_succ_of_le (le_foldr_max s.ids x hx)

/-! ## Lemmas on the grouping of the applicant pool -/

theorem candidateView_some (s : Store) (c : ObjectId) (v : CandidateView)
    (h : candidateView s c = some v) :
    v._id = c ∧ ∀ jobs, (⟨v._id, v.name, v.email, jobs⟩ : Applicant)
      = ⟨c, ((s.users.find? (fun u => decide (u._id = c))).map (·.name)).getD "",
          ((s.users.find? (fun u => decide (u._id = c))).map (·.email)).getD "", jobs⟩ := by
  unfold candidateView at h
  cases hf : s.users.find? (fun u => decide (u._id = c)) with
  | none => simp [hf] at h
  | some u =>
    have hid : u._id = c := by simpa using List.find?_some hf
    simp [hf] at h
    subst h
    simp [hid]

theorem candidateView_isSome (s : Store) (c : ObjectId) (h : ∃ u ∈ s.users, u._id = c) :
    (candidateView s c).isSome := by
  obtain ⟨u, hu, hid⟩ := h
  unfold candidateView
  cases hf : s.users.find? (fun u => decide (u._id = c)) with
  | some v => simp
  | none =>
    rw [List.find?_eq_none] at hf
    have := hf u hu
    simp [hid] at this

theorem jobsOf_cons_self (a : Application) (l : List Application) :
    jobsOf (a :: l) a.candidate = a.job :: jobsOf l a.candidate := by
  simp [jobsOf]

theorem jobsOf_cons_ne (a : Application) (l : List Application) (c : ObjectId)
    (h : c ≠ a.candidate) : jobsOf (a :: l) c = jobsOf l c := by
  have h' : ¬ a.candidate = c := fun e => h e.symm
  simp [jobsOf, h']

theorem specApplicant_cons_ne (s : Store) (a : Application) (l : List Application)
    (c : ObjectId) (h : c ≠ a.candidate) : specApplicant s (a :: l) c = specApplicant s l c := by
  simp [specApplicant, jobsOf_cons_ne a l c h]

theorem pushJob_fst (key job : ObjectId) (kv : ObjectId × Applicant) :
    (pushJob key job kv).1 = kv.1 := by
  unfold pushJob
  split <;> rfl

theorem map_fst_pushJob (key job : ObjectId) (L : List (ObjectId × Applicant)) :
    (L.map (pushJob key job)).map (·.1) = L.map (·.1) := by
  rw [List.map_map]
  exact List.map_congr_left (fun kv _ => pushJob_fst key job kv)

theorem withJobs_pushJob (a : Application) (l : List Application) (kv : ObjectId × Applicant) :
    withJobs l (pushJob a.candidate a.job kv) = withJobs (a :: l) kv := by
  unfold pushJob withJobs
  by_cases h : kv.1 = a.candidate
  · simp [h, jobsOf_cons_self]
  · simp [h, jobsOf_cons_ne a l kv.1 h]

theorem map_pushJob_of_not_mem (key job : ObjectId) (L : List (ObjectId × Applicant))
    (h : key ∉ L.map (·.1)) : L.map (pushJob key job) = L := by
  conv_rhs => rw [← List.map_id L]
  apply List.map_congr_left
  intro kv hkv
  have hne : kv.1 ≠ key := fun e => h (e ▸ List.mem_map_of_mem (·.1) hkv)
  simp [pushJob, hne]

theorem any_key_eq (key : ObjectId) (L : List (ObjectId × Applicant)) :
    (L.any (fun kv => decide (kv.1 = key))) = decide (key ∈ L.map (·.1)) := by
  induction L with
  | nil => simp
  | cons kv L ih =>
    simp only [List.any_cons, ih, List.map_cons, List.mem_cons]
    by_cases h : kv.1 = key
    · simp [h]
    · have h' : ¬ key = kv.1 := fun e => h e.symm
      simp [h, h']

/-- The grouping loop, run on populated applications whose candidates all exist, from any
partly filled object `acc`: the entries already present receive the jobs of their
candidate, and the candidates not yet present are appended in first-occurrence order. -/
theorem groupByCandidate_eq (s : Store) (l : List Application)
    (hl : ∀ a ∈ l, (candidateView s a.candidate).isSome) :
    ∀ acc : List (ObjectId × Applicant),
      groupByCandidate acc (l.map (populateCandidate s)) =
        .ok (acc.map (withJobs l)
          ++ ((firstOccurrences (l.map (·.candidate))).filter
                (fun c => decide (c ∉ acc.map (·.1)))).map
              (fun c => (c, specApplicant s l c))) := by
  induction l with
  | nil =>
    intro acc
    have hid : acc.map (withJobs []) = acc := by
      conv_rhs => rw [← List.map_id acc]
      exact List.map_congr_left (fun kv _ => by simp [withJobs, jobsOf])
    simp [groupByCandidate, firstOccurrences, hid]
  | cons a l ih =>
    intro acc
    have hl' : ∀ b ∈ l, (candidateView s b.candidate).isSome :=
      fun b hb => hl b (List.mem_cons_of_mem _ hb)
    obtain ⟨v, hv⟩ := Option.isSome_iff_exists.mp (hl a (List.mem_cons_self _ _))
    obtain ⟨hvid, hvent⟩ := candidateView_some s a.candidate v hv
    simp only [List.map_cons, groupByCandidate, groupStep, populateCandidate, hv]
    rw [ih hl', map_fst_pushJob, hvid, any_key_eq]
    congr 1
    by_cases hmem : a.candidate ∈ acc.map (·.1)
    · simp only [hmem, decide_True, if_true, firstOccurrences, List.map_map]
      congr 1
      · exact List.map_congr_left (fun kv _ => withJobs_pushJob a l kv)
      · rw [List.filter_cons_of_neg (by simpa using hmem), List.filter_filter]
        have hf : ∀ c ∈ firstOccurrences (l.map (·.candidate)),
            (decide (c ∉ acc.map (·.1)) && decide (c ≠ a.candidate))
              = decide (c ∉ acc.map (·.1)) := by
          intro c _
          by_cases hc : c ∈ acc.map (·.1)
          · simp [hc]
          · have : c ≠ a.candidate := fun e => hc (e ▸ hmem)
            simp [hc, this]
        rw [List.filter_congr hf]
        apply List.map_congr_left
        intro c hc
        have hc' : c ∉ acc.map (·.1) := by simpa using (List.mem_filter.mp hc).2
        have : c ≠ a.candidate := fun e => hc' (e ▸ hmem)
        rw [specApplicant_cons_ne s a l c this]
    · rw [hvid] at hvent
      have hpush : (acc ++ [(a.candidate,
            (⟨a.candidate, v.name, v.email, []⟩ : Applicant))]).map (pushJob a.candidate a.job)
          = acc ++ [(a.candidate, ⟨a.candidate, v.name, v.email, [a.job]⟩)] := by
        rw [List.map_append, map_pushJob_of_not_mem _ _ _ hmem]
        simp [pushJob]
      have hold : acc.map (withJobs l) = acc.map (withJobs (a :: l)) := by
        apply List.map_congr_left
        intro kv hkv
        have hne : kv.1 ≠ a.candidate := fun e => hmem (e ▸ List.mem_map_of_mem (·.1) hkv)
        simp [withJobs, jobsOf_cons_ne a l kv.1 hne]
      have hnew : withJobs l (a.candidate, ⟨a.candidate, v.name, v.email, [a.job]⟩)
          = (a.candidate, specApplicant s (a :: l) a.candidate) := by
        simp only [withJobs, specApplicant, jobsOf_cons_self]
        rw [hvent]
        simp
      have hf : ∀ c ∈ firstOccurrences (l.map (·.candidate)),
          decide (c ∉ (acc ++ [(a.candidate,
              (⟨a.candidate, v.name, v.email, []⟩ : Applicant))]).map (·.1))
            = (decide (c ∉ acc.map (·.1)) && decide (c ≠ a.candidate)) := by
        intro c _
        by_cases hc : c ∈ acc.map (·.1) <;> by_cases hca : c = a.candidate <;>
          simp_all
      simp only [hmem, decide_False, if_false, Bool.false_eq_true, firstOccurrences]
      rw [hpush, List.map_append, hold, List.map_singleton, hnew,
        List.filter_cons_of_pos (by simpa using hmem), List.map_cons, List.filter_filter,
        List.filter_congr hf, List.append_assoc, List.singleton_append]
      congr 2
      apply List.map_congr_left
      intro c hc
      have hc' : c ≠ a.candidate := by
        have := (List.mem_filter.mp hc).2
        simp at this
        exact this.2
      rw [specApplicant_cons_ne s a l c hc']

/-- The grouping loop succeeds only when every candidate populated to a user. -/
theorem groupByCandidate_ok_isSome (s : Store) (l : List Application) :
    ∀ (acc r : List (ObjectId × Applicant)),
      groupByCandidate acc (l.map (populateCandidate s)) = .ok r →
        ∀ a ∈ l, (candidateView s a.candidate).isSome := by
  induction l with
  | nil => intro acc r _ a ha; cases ha
  | cons b l ih =>
    intro acc r h a ha
    simp only [List.map_cons, groupByCandidate, groupStep, populateCandidate] at h
    cases hv : candidateView s b.candidate with
    | none => simp [hv] at h
    | some v =>
      rcases List.mem_cons.mp ha with rfl | ha'
      · simp [hv]
      · simp only [hv] at h
        exact ih _ r h a ha'

theorem mem_firstOccurrences (l : List ObjectId) (x : ObjectId) :
    x ∈ firstOccurrences l ↔ x ∈ l := by
  induction l with
  | nil => simp [firstOccurrences]
  | cons y l ih =>
    simp only [firstOccurrences, List.mem_cons, List.mem_filter, ih]
    by_cases h : x = y <;> simp [h]

theorem nodup_firstOccurrences (l : List ObjectId) : (firstOccurrences l).Nodup := by
  induction l with
  | nil => simp [firstOccurrences]
  | cons y l ih =>
    simp only [firstOccurrences, List.nodup_cons, List.mem_filter]
    exact ⟨fun h => by simp at h, ih.filter _⟩

/-- The applicant pool, when the employer id is well formed and the candidate of every
application it groups is a stored user: one entry per candidate, in first-occurrence
order, each as the specification describes it. -/
theorem employerApplicants_eq (s : Store) (employerId : String) (e : ObjectId)
    (he : castObjectId employerId = some e)
    (hc : ∀ a ∈ applicationsOfEmployer s e, (candidateView s a.candidate).isSome) :
    employerApplicants s employerId =
      (⟨200, .applicants ((firstOccurrences ((applicationsOfEmployer s e).map (·.candidate))).map
        (specApplicant s (applicationsOfEmployer s e)))⟩, s) := by
  unfold employerApplicants
  simp only [he]
  rw [groupByCandidate_eq s _ hc []]
  simp [List.map_map, Function.comp_def]

/-- The applicant pool answers with a sequence of entries only on the path of
`employerApplicants_eq`. -/
theorem employerApplicants_entries (s s' : Store) (employerId : String)
    (entries : List Applicant) (code : Nat)
    (h : employerApplicants s employerId = (⟨code, .applicants entries⟩, s')) :
    ∃ e, castObjectId employerId = some e
      ∧ (∀ a ∈ applicationsOfEmployer s e, (candidateView s a.candidate).isSome)
      ∧ entries = (firstOccurrences ((applicationsOfEmployer s e).map (·.candidate))).map
          (specApplicant s (applicationsOfEmployer s e)) := by
  cases he : castObjectId employerId with
  | none => simp [employerApplicants, he, failure] at h
  | some e =>
    cases hg : groupByCandidate [] ((applicationsOfEmployer s e).map (populateCandidate s)) with
    | error err => simp [employerApplicants, he, hg, failure] at h
    | ok r =>
      have hc := groupByCandidate_ok_isSome s _ [] r hg
      refine ⟨e, rfl, hc, ?_⟩
      rw [employerApplicants_eq s employerId e he hc] at h
      simp only [Prod.mk.injEq, Response.mk.injEq, Body.applicants.injEq] at h
      exact h.1.2.symm

/-- The applications the pool groups are exactly the stored applications whose job is the
id of a stored job posted by the employer, in store order. -/
theorem applicationsOfEmployer_eq (s : Store) (e : ObjectId) :
    applicationsOfEmployer s e =
      s.applications.filter (fun a =>
        decide (∃ job ∈ s.jobs, job.postedBy = some e ∧ job._id = a.job)) := by
  unfold applicationsOfEmployer
  apply List.filter_congr
  intro a _
  simp only [List.mem_map, List.mem_filter, decide_eq_true_eq, decide_eq_decide]
  constructor
  · rintro ⟨job, ⟨hjob, hp⟩, hid⟩
    exact ⟨job, hjob, hp, hid⟩
  · rintro ⟨job, hjob, hp, hid⟩
    exact ⟨job, ⟨hjob, hp⟩, hid⟩

theorem jobsOf_filter (p : Application → Prop) [DecidablePred p] (apps : List Application)
    (c : ObjectId) :
    jobsOf (apps.filter (fun a => decide (p a))) c =
      (apps.filter (fun a => decide (p a ∧ a.candidate = c))).map (·.job) := by
  unfold jobsOf
  rw [List.filter_filter]
  congr 1
  apply List.filter_congr
  intro a _
  simp [Bool.and_comm]

theorem jobs_any_freshId (s : Store) :
    s.jobs.any (fun job => decide (job._id = freshId s)) = false := by
  rw [List.any_eq_false]
  intro job hjob h
  have hmem : job._id ∈ s.ids := by
    simp only [Store.ids, List.mem_append, List.mem_map]
    exact Or.inl (Or.inr ⟨job, hjob, rfl⟩)
  have hlt := lt_freshId s _ hmem
  have heq : job._id = freshId s := by simpa using h
  rw [heq] at hlt
  exact absurd hlt (lt_irrefl _)

/-! ## The claims -/

/-- C1: a signup request with all four fields present whose email is the email of a stored
user is answered with status 400, and the store (users, jobs, applications) is left as it
was. -/
theorem signup_registered_email (s : Store) (body : SignupBody)
    (name email password role : String)
    (hn : body.name = some name) (he : body.email = some email)
    (hp : body.password = some password) (hr : body.role = some role)
    (hreg : ∃ u ∈ s.users, u.email = email) :
    (signup s body).1.status = 400 ∧ (signup s body).2 = s := by
  obtain ⟨u, hu⟩ := findUserByEmail_of_mem s email hreg
  unfold signup
  rw [hn, he, hp, hr]
  by_cases hempty : name = "" ∨ email = "" ∨ password = "" ∨ role = ""
  · simp [hempty]
  · simp [hempty, hu]

theorem signup_registered_email_witness :
    (signup ⟨[⟨1, "Alice", "alice@acme.io", "pw", .employer⟩], [], []⟩
        ⟨some "Eve", some "alice@acme.io", some "other", some "candidate"⟩).1.status = 400
      ∧ (signup ⟨[⟨1, "Alice", "alice@acme.io", "pw", .employer⟩], [], []⟩
        ⟨some "Eve", some "alice@acme.io", some "other", some "candidate"⟩).2
          = ⟨[⟨1, "Alice", "alice@acme.io", "pw", .employer⟩], [], []⟩ :=
  signup_registered_email _ _ "Eve" "alice@acme.io" "other" "candidate" rfl rfl rfl rfl
    ⟨⟨1, "Alice", "alice@acme.io", "pw", .employer⟩, by simp, rfl⟩

/-- C2, as the code has it: for a login request whose email and password are both texts,
login answers 200 with the view of a stored user exactly when some stored user has exactly
that email and exactly that password, and otherwise 401.  For every login request, a
failure is answered 401 with the one body "Invalid credentials", whether the email is
unknown or only the password fails, and the store is never changed. -/
theorem login_exact_match (s : Store) (email password : String) :
    ((login s ⟨.text email, .text password⟩).1.status = 200 ↔
        ∃ u ∈ s.users, u.email = email ∧ u.password = password)
      ∧ ((∃ u ∈ s.users, u.email = email ∧ u.password = password) →
          ∃ u ∈ s.users, u.email = email ∧ u.password = password ∧
            login s ⟨.text email, .text password⟩ =
              (⟨200, .loggedIn "Login successful"
                ⟨u._id, u.name, .text u.email, u.role.text⟩⟩, s))
      ∧ ((¬ ∃ u ∈ s.users, u.email = email ∧ u.password = password) →
          login s ⟨.text email, .text password⟩ = (⟨401, .message "Invalid credentials"⟩, s))
      ∧ (∀ body : LoginBody,
          (login s body).1.status = 200
            ∨ login s body = (⟨401, .message "Invalid credentials"⟩, s))
      ∧ (∀ body : LoginBody, (login s body).2 = s) := by
  have hiff : (∃ u ∈ s.users, (FieldValue.text email).satisfiedBy u.email = true
        ∧ (FieldValue.text password).satisfiedBy u.password = true)
      ↔ ∃ u ∈ s.users, u.email = email ∧ u.password = password := by
    simp only [satisfiedBy_text]
  have hgen : ∀ body : LoginBody, (login s body).1.status = 200
      ∨ login s body = (⟨401, .message "Invalid credentials"⟩, s) := by
    intro body
    cases hf : findUserByCredentials s body.email body.password with
    | none => right; simp [login, hf]
    | some u => left; simp [login, hf]
  have hstore : ∀ body : LoginBody, (login s body).2 = s := by
    intro body
    unfold login
    split <;> rfl
  cases hf : findUserByCredentials s (.text email) (.text password) with
  | none =>
    have hno : ¬ ∃ u ∈ s.users, u.email = email ∧ u.password = password :=
      fun h => (findUserByCredentials_none s _ _).mp hf (hiff.mpr h)
    have hl : login s ⟨.text email, .text password⟩
        = (⟨401, .message "Invalid credentials"⟩, s) := by
      simp [login, hf]
    refine ⟨?_, fun h => absurd h hno, fun _ => hl, hgen, hstore⟩
    rw [hl]
    constructor
    · intro h; simp at h
    · intro h; exact absurd h hno
  | some u =>
    obtain ⟨hu, he, hp⟩ := findUserByCredentials_some s _ _ u hf
    rw [satisfiedBy_text] at he hp
    have hl : login s ⟨.text email, .text password⟩ =
        (⟨200, .loggedIn "Login successful" ⟨u._id, u.name, .text u.email, u.role.text⟩⟩, s) := by
      simp [login, hf, he]
    refine ⟨?_, fun _ => ⟨u, hu, he, hp, hl⟩, fun h => absurd ⟨u, hu, he, hp⟩ h, hgen, hstore⟩
    rw [hl]
    exact ⟨fun _ => ⟨u, hu, he, hp⟩, fun _ => rfl⟩

/-- C2 as stated fails: with one stored user, of email "alice@acme.io" and password "pw",
the login request whose email is that text and whose password is the object with the one
key `$ne` and the operand null is answered 200 with the view of that user, although no
stored user has that password: the filter of `findOne` takes the object as a condition
that every stored password satisfies. -/
theorem login_operator_object_accepted :
    login ⟨[⟨1, "Alice", "alice@acme.io", "pw", .employer⟩], [], []⟩
        ⟨.text "alice@acme.io", .ne none⟩
      = (⟨200, .loggedIn "Login successful" ⟨1, "Alice", .text "alice@acme.io", "employer"⟩⟩,
          ⟨[⟨1, "Alice", "alice@acme.io", "pw", .employer⟩], [], []⟩)
      ∧ (¬ ∃ u ∈ (⟨[⟨1, "Alice", "alice@acme.io", "pw", .employer⟩], [], []⟩ : Store).users,
          FieldValue.text u.email = .text "alice@acme.io"
            ∧ FieldValue.text u.password = .ne none)
      ∧ ¬ (∀ (s : Store) (body : LoginBody),
            (login s body).1.status = 200 ↔
              ∃ u ∈ s.users, FieldValue.text u.email = body.email
                ∧ FieldValue.text u.password = body.password) := by
  refine ⟨by decide, by decide, fun h => ?_⟩
  have := (h ⟨[⟨1, "Alice", "alice@acme.io", "pw", .employer⟩], [], []⟩
    ⟨.text "alice@acme.io", .ne none⟩).mp (by decide)
  revert this
  decide

/-- C3: a create-job request in which one of title, company, location, type, description
is absent or the empty text is answered with status 400, and the stored jobs (indeed the
whole store) are left as they were. -/
theorem createJob_required_missing (s : Store) (now : Nat) (body : JobBody)
    (h : absentOrEmpty body.title ∨ absentOrEmpty body.company ∨ absentOrEmpty body.location
      ∨ absentOrEmpty body.type ∨ absentOrEmpty body.description) :
    (createJob s now body).1.status = 400 ∧ (createJob s now body).2.jobs = s.jobs
      ∧ (createJob s now body).2 = s := by
  have hbad : body.invalidPaths ≠ [] := by
    unfold JobBody.invalidPaths
    unfold absentOrEmpty at h
    rcases h with h | h | h | h | h <;> rcases h with h | h <;> simp [h]
  simp [createJob, hbad, failure]

theorem createJob_required_missing_witness :
    (createJob Store.empty 7
        ⟨some "Backend Engineer", some "Acme", some "", some "Full-time", some "Build it",
          [], [], none, none, none, none⟩).1.status = 400
      ∧ (createJob Store.empty 7
        ⟨some "Backend Engineer", some "Acme", some "", some "Full-time", some "Build it",
          [], [], none, none, none, none⟩).2.jobs = Store.empty.jobs
      ∧ (createJob Store.empty 7
        ⟨some "Backend Engineer", some "Acme", some "", some "Full-time", some "Build it",
          [], [], none, none, none, none⟩).2 = Store.empty :=
  createJob_required_missing Store.empty 7 _ (Or.inr (Or.inr (Or.inl (Or.inr rfl))))

/-- C4, as the code has it: when the path segment is a well-formed id that no stored job
has, the apply handler answers 404 "Job not found" and the store, its applications
included, is left as it was. -/
theorem applyToJob_unknown_job (s : Store) (now : Nat) (id : String) (body : ApplyBody)
    (j : ObjectId) (hid : castObjectId id = some j) (hno : ∀ job ∈ s.jobs, job._id ≠ j) :
    applyToJob s now id body = (⟨404, .message "Job not found"⟩, s)
      ∧ (applyToJob s now id body).2.applications = s.applications := by
  have h : applyToJob s now id body = (⟨404, .message "Job not found"⟩, s) := by
    simp [applyToJob, findJobById_cast s id j hid, findJob_none s j hno]
  exact ⟨h, by rw [h]⟩

theorem applyToJob_unknown_job_witness :
    applyToJob ⟨[], [⟨1, "Backend Engineer", "Acme", "Pune", "Full-time", "Build it", [], [],
          none, 0, none⟩], []⟩ 5 "0000000000000000000000ff"
        ⟨some "Bob", some "bob@x.io", some "http://x/resume.pdf",
          some "000000000000000000000002"⟩
        = (⟨404, .message "Job not found"⟩,
          ⟨[], [⟨1, "Backend Engineer", "Acme", "Pune", "Full-time", "Build it", [], [],
            none, 0, none⟩], []⟩)
      ∧ (applyToJob ⟨[], [⟨1, "Backend Engineer", "Acme", "Pune", "Full-time", "Build it", [],
          [], none, 0, none⟩], []⟩ 5 "0000000000000000000000ff"
        ⟨some "Bob", some "bob@x.io", some "http://x/resume.pdf",
          some "000000000000000000000002"⟩).2.applications = [] :=
  applyToJob_unknown_job _ 5 "0000000000000000000000ff" _ 255 (by decide) (by decide)

/-- C4 as stated fails: the path segment "abc" is the id of no stored job (the store is
empty), yet the apply handler answers 500, not 404, because the cast of the segment to an
id throws into the catch. -/
theorem applyToJob_malformed_id_not_404 :
    (∀ job ∈ Store.empty.jobs, castObjectId "abc" ≠ some job._id)
      ∧ (applyToJob Store.empty 5 "abc"
          ⟨some "Bob", some "bob@x.io", some "http://x/resume.pdf",
            some "000000000000000000000002"⟩).1.status = 500
      ∧ ¬ (∀ (s : Store) (now : Nat) (id : String) (body : ApplyBody),
            (∀ job ∈ s.jobs, castObjectId id ≠ some job._id) →
            (applyToJob s now id body).1.status = 404) := by
  refine ⟨by decide, by decide, fun h => ?_⟩
  have := h Store.empty 5 "abc" ⟨none, none, none, none⟩ (by decide)
  revert this
  decide

/-- C5: in a store holding job `j`, a valid apply request (path id `j`, a well-formed
candidate id) submitted twice in a row is answered 201 both times; the store then holds
exactly the former applications followed by two new ones with distinct ids that no
document had before, both for job `j` and the same candidate, both carrying the submitted
texts; users and jobs are untouched. -/
theorem applyToJob_twice (s : Store) (now₁ now₂ : Nat) (id : String) (body : ApplyBody)
    (j c : ObjectId) (raw : String)
    (hid : castObjectId id = some j) (hjob : ∃ job ∈ s.jobs, job._id = j)
    (hcand : body.candidateId = some raw) (hc : castObjectId raw = some c) :
    ∃ a₁ a₂ : Application,
      applyToJob s now₁ id body
          = (⟨201, .applied "Application submitted" a₁⟩,
              { s with applications := s.applications ++ [a₁] })
        ∧ applyToJob (applyToJob s now₁ id body).2 now₂ id body
          = (⟨201, .applied "Application submitted" a₂⟩,
              { s with applications := s.applications ++ [a₁, a₂] })
        ∧ a₁._id ≠ a₂._id ∧ a₁._id ∉ s.ids ∧ a₂._id ∉ s.ids
        ∧ a₁.job = j ∧ a₂.job = j ∧ a₁.candidate = c ∧ a₂.candidate = c
        ∧ a₁ = ⟨a₁._id, j, c, body.name, body.email, body.resume, now₁⟩
        ∧ a₂ = ⟨a₂._id, j, c, body.name, body.email, body.resume, now₂⟩ := by
  obtain ⟨job, hfind, hjid, -⟩ := findJob_some s j hjob
  let a₁ : Application := ⟨freshId s, j, c, body.name, body.email, body.resume, now₁⟩
  let s₁ : Store := { s with applications := s.applications ++ [a₁] }
  let a₂ : Application := ⟨freshId s₁, j, c, body.name, body.email, body.resume, now₂⟩
  have h₁ : applyToJob s now₁ id body = (⟨201, .applied "Application submitted" a₁⟩, s₁) := by
    simp [applyToJob, findJobById_cast s id j hid, hfind, hcand, hc, hjid, a₁, s₁]
  have h₂ : applyToJob s₁ now₂ id body
      = (⟨201, .applied "Application submitted" a₂⟩,
          { s with applications := s.applications ++ [a₁, a₂] }) := by
    have hfind₁ : s₁.jobs.find? (fun job => decide (job._id = j)) = some job := hfind
    simp [applyToJob, findJobById_cast s₁ id j hid, hfind₁, hcand, hc, hjid, a₂, s₁]
  have hmem : a₁._id ∈ s₁.ids := by
    simp [Store.ids, s₁]
  have hlt : a₁._id < a₂._id := lt_freshId s₁ _ hmem
  have hsub : ∀ x ∈ s.ids, x ∈ s₁.ids := by
    intro x hx
    simp only [Store.ids, List.mem_append, List.mem_map, s₁] at hx ⊢
    rcases hx with (hx | hx) | ⟨a, ha, rfl⟩
    · exact Or.inl (Or.inl hx)
    · exact Or.inl (Or.inr hx)
    · exact Or.inr ⟨a, Or.inl ha, rfl⟩
  refine ⟨a₁, a₂, h₁, ?_, ne_of_lt hlt, ?_, ?_, rfl, rfl, rfl, rfl, rfl, rfl⟩
  · rw [h₁]; exact h₂
  · intro hx; exact absurd (lt_freshId s _ hx) (lt_irrefl _)
  · intro hx; exact absurd (lt_freshId s₁ _ (hsub _ hx)) (lt_irrefl _)

theorem applyToJob_twice_witness :
    ∃ a₁ a₂ : Application,
      applyToJob ⟨[], [⟨1, "Backend Engineer", "Acme", "Pune", "Full-time", "Build it", [], [],
            none, 0, none⟩], []⟩ 5 "000000000000000000000001"
          ⟨some "Bob", some "bob@x.io", some "http://x/resume.pdf",
            some "000000000000000000000002"⟩
        = (⟨201, .applied "Application submitted" a₁⟩,
            ⟨[], [⟨1, "Backend Engineer", "Acme", "Pune", "Full-time", "Build it", [], [],
              none, 0, none⟩], [] ++ [a₁]⟩)
        ∧ a₁._id ≠ a₂._id ∧ a₁.job = 1 ∧ a₂.job = 1 ∧ a₁.candidate = 2 ∧ a₂.candidate = 2 := by
  obtain ⟨a₁, a₂, h₁, -, hne, -, -, hj₁, hj₂, hc₁, hc₂, -, -⟩ :=
    applyToJob_twice ⟨[], [⟨1, "Backend Engineer", "Acme", "Pune", "Full-time", "Build it", [],
        [], none, 0, none⟩], []⟩ 5 6 "000000000000000000000001"
      ⟨some "Bob", some "bob@x.io", some "http://x/resume.pdf",
        some "000000000000000000000002"⟩ 1 2 "000000000000000000000002"
      (by decide) ⟨_, List.mem_singleton.mpr rfl, rfl⟩ rfl (by decide)
  exact ⟨a₁, a₂, h₁, hne, hj₁, hj₂, hc₁, hc₂⟩

/-- C9: list-jobs answers 200 with exactly the stored jobs, in store order, and leaves the
store as it was; with no stored job the answer is 200 with the empty sequence. -/
theorem listJobs_all (s : Store) :
    listJobs s = (⟨200, .jobs s.jobs⟩, s)
      ∧ listJobs ⟨s.users, [], s.applications⟩ = (⟨200, .jobs []⟩, ⟨s.users, [], s.applications⟩) :=
  ⟨rfl, rfl⟩

/-- C10: a signup request in which one of name, email, password, role is absent or the
empty text is answered with status 400 and the store is left as it was. -/
theorem signup_field_missing (s : Store) (body : SignupBody)
    (h : absentOrEmpty body.name ∨ absentOrEmpty body.email ∨ absentOrEmpty body.password
      ∨ absentOrEmpty body.role) :
    (signup s body).1 = ⟨400, .message "All fields required"⟩ ∧ (signup s body).2 = s := by
  obtain ⟨name, email, password, role⟩ := body
  unfold absentOrEmpty at h
  simp only at h
  cases name <;> cases email <;> cases password <;> cases role <;> simp [signup] at h ⊢
  rename_i name email password role
  rcases h with h | h | h | h <;> simp [h]

theorem signup_field_missing_witness :
    (signup Store.empty ⟨some "Alice", some "alice@acme.io", none, some "employer"⟩).1
        = ⟨400, .message "All fields required"⟩
      ∧ (signup Store.empty ⟨some "Alice", some "alice@acme.io", none, some "employer"⟩).2
        = Store.empty :=
  signup_field_missing Store.empty _ (Or.inr (Or.inr (Or.inl (Or.inl rfl))))

/-- C6, as the code has it: when every application's candidate is a stored user and the
path segment is a well-formed employer id `e`, the applicant pool answers 200 and leaves
the store as it was; the ids of its entries are the first-occurrence de-duplication of the
candidate ids of the stored applications whose job is a stored job posted by `e`: exactly
those candidate ids, each once, ordered by the candidate's first such application. -/
theorem employerApplicants_candidates (s : Store) (employerId : String) (e : ObjectId)
    (he : castObjectId employerId = some e)
    (hu : ∀ a ∈ s.applications, ∃ u ∈ s.users, u._id = a.candidate) :
    ∃ entries : List Applicant,
      employerApplicants s employerId = (⟨200, .applicants entries⟩, s)
        ∧ entries.map (·._id)
            = firstOccurrences ((s.applications.filter (fun a =>
                decide (∃ job ∈ s.jobs, job.postedBy = some e ∧ job._id = a.job))).map
                  (·.candidate))
        ∧ (entries.map (·._id)).Nodup
        ∧ ∀ c, c ∈ entries.map (·._id) ↔
            ∃ a ∈ s.applications, a.candidate = c
              ∧ ∃ job ∈ s.jobs, job.postedBy = some e ∧ job._id = a.job := by
  have hc : ∀ a ∈ applicationsOfEmployer s e, (candidateView s a.candidate).isSome := by
    intro a ha
    exact candidateView_isSome s _ (hu a (List.mem_filter.mp ha).1)
  have hids : ((firstOccurrences ((applicationsOfEmployer s e).map (·.candidate))).map
        (specApplicant s (applicationsOfEmployer s e))).map (·._id)
      = firstOccurrences ((applicationsOfEmployer s e).map (·.candidate)) := by
    simp [List.map_map, Function.comp_def, specApplicant]
  refine ⟨_, employerApplicants_eq s employerId e he hc, ?_, ?_, ?_⟩
  · rw [hids, applicationsOfEmployer_eq]
  · rw [hids]; exact nodup_firstOccurrences _
  · intro c
    rw [hids, mem_firstOccurrences, applicationsOfEmployer_eq]
    simp only [List.mem_map, List.mem_filter, decide_eq_true_eq]
    constructor
    · rintro ⟨a, ⟨ha, hjob⟩, hcand⟩
      exact ⟨a, ha, hcand, hjob⟩
    · rintro ⟨a, ha, hcand, hjob⟩
      exact ⟨a, ⟨ha, hjob⟩, hcand⟩

theorem employerApplicants_candidates_witness :
    ∃ entries : List Applicant,
      employerApplicants
          ⟨[⟨1, "Alice", "alice@acme.io", "pw", .employer⟩, ⟨2, "Dan", "dan@corp.io", "pw", .employer⟩,
            ⟨3, "Bob", "bob@x.io", "pw", .candidate⟩, ⟨4, "Cy", "cy@x.io", "pw", .candidate⟩],
           [⟨5, "Backend Engineer", "Acme", "Pune", "Full-time", "Build it", [], [], none, 0,
              some 1⟩,
            ⟨6, "Clerk", "Corp", "Goa", "Part-time", "File it", [], [], none, 0, some 2⟩],
           [⟨7, 6, 3, none, none, none, 0⟩, ⟨8, 5, 4, none, none, none, 0⟩,
            ⟨9, 5, 3, none, none, none, 0⟩, ⟨10, 5, 4, none, none, none, 0⟩]⟩
          "000000000000000000000001"
        = (⟨200, .applicants entries⟩,
          ⟨[⟨1, "Alice", "alice@acme.io", "pw", .employer⟩, ⟨2, "Dan", "dan@corp.io", "pw", .employer⟩,
            ⟨3, "Bob", "bob@x.io", "pw", .candidate⟩, ⟨4, "Cy", "cy@x.io", "pw", .candidate⟩],
           [⟨5, "Backend Engineer", "Acme", "Pune", "Full-time", "Build it", [], [], none, 0,
              some 1⟩,
            ⟨6, "Clerk", "Corp", "Goa", "Part-time", "File it", [], [], none, 0, some 2⟩],
           [⟨7, 6, 3, none, none, none, 0⟩, ⟨8, 5, 4, none, none, none, 0⟩,
            ⟨9, 5, 3, none, none, none, 0⟩, ⟨10, 5, 4, none, none, none, 0⟩]⟩)
        ∧ entries.map (·._id) = [4, 3] := by
  obtain ⟨entries, h, hids, -, -⟩ := employerApplicants_candidates
    ⟨[⟨1, "Alice", "alice@acme.io", "pw", .employer⟩, ⟨2, "Dan", "dan@corp.io", "pw", .employer⟩,
        ⟨3, "Bob", "bob@x.io", "pw", .candidate⟩, ⟨4, "Cy", "cy@x.io", "pw", .candidate⟩],
      [⟨5, "Backend Engineer", "Acme", "Pune", "Full-time", "Build it", [], [], none, 0,
        some 1⟩,
       ⟨6, "Clerk", "Corp", "Goa", "Part-time", "File it", [], [], none, 0, some 2⟩],
      [⟨7, 6, 3, none, none, none, 0⟩, ⟨8, 5, 4, none, none, none, 0⟩,
        ⟨9, 5, 3, none, none, none, 0⟩, ⟨10, 5, 4, none, none, none, 0⟩]⟩
    "000000000000000000000001" 1 (by decide) (by decide)
  exact ⟨entries, h, hids.trans (by decide)⟩

/-- C6 as stated fails: in the empty store (where every application's candidate is
trivially a stored user) the employer id "abc" is answered with 500, not 200, because the
cast of the path segment to an id throws into the catch. -/
theorem employerApplicants_malformed_id_not_200 :
    (∀ a ∈ Store.empty.applications, ∃ u ∈ Store.empty.users, u._id = a.candidate)
      ∧ (employerApplicants Store.empty "abc").1.status = 500
      ∧ ¬ (∀ (s : Store) (employerId : String),
            (∀ a ∈ s.applications, ∃ u ∈ s.users, u._id = a.candidate) →
            (employerApplicants s employerId).1.status = 200) := by
  refine ⟨by decide, by decide, fun h => ?_⟩
  have := h Store.empty "abc" (by decide)
  revert this
  decide

/-- C7, as the code has it: whenever the applicant pool answers with entries, the `jobs` of
the entry for a candidate is exactly the sequence of job ids of that candidate's stored
applications to stored jobs posted by the employer, in application order, one element per
application.  It answers so (200) when the employer id is well formed and the candidate of
every application to a job posted by the employer is a stored user, with an entry for every
such candidate; in particular, when the applications to jobs posted by the employer are
one to job A and then one to job B, both by one candidate who is a stored user, the answer
is the single entry of that candidate with jobs [A, B], whatever other employers' jobs and
applications the store holds. -/
theorem employerApplicants_jobs (s : Store) (employerId : String) :
    (∀ (code : Nat) (entries : List Applicant) (s' : Store),
        employerApplicants s employerId = (⟨code, .applicants entries⟩, s') →
        ∃ e, castObjectId employerId = some e ∧
          ∀ entry ∈ entries,
            entry.jobs = (s.applications.filter (fun a =>
              decide ((∃ job ∈ s.jobs, job.postedBy = some e ∧ job._id = a.job)
                ∧ a.candidate = entry._id))).map (·.job))
      ∧ (∀ e, castObjectId employerId = some e →
          (∀ a ∈ s.applications, (∃ job ∈ s.jobs, job.postedBy = some e ∧ job._id = a.job) →
            ∃ u ∈ s.users, u._id = a.candidate) →
          ∃ entries, employerApplicants s employerId = (⟨200, .applicants entries⟩, s) ∧
            ∀ b ∈ s.applications, (∃ job ∈ s.jobs, job.postedBy = some e ∧ job._id = b.job) →
              ∃ entry ∈ entries,
                entry._id = b.candidate ∧
                  entry.jobs = (s.applications.filter (fun a =>
                    decide ((∃ job ∈ s.jobs, job.postedBy = some e ∧ job._id = a.job)
                      ∧ a.candidate = b.candidate))).map (·.job))
      ∧ (∀ (e c A B : ObjectId) (a₁ a₂ : Application),
          castObjectId employerId = some e →
          s.applications.filter (fun a =>
            decide (∃ job ∈ s.jobs, job.postedBy = some e ∧ job._id = a.job)) = [a₁, a₂] →
          a₁.job = A → a₂.job = B → a₁.candidate = c → a₂.candidate = c →
          (∃ u ∈ s.users, u._id = c) →
          ∃ entry, employerApplicants s employerId = (⟨200, .applicants [entry]⟩, s)
            ∧ entry._id = c ∧ entry.jobs = [A, B]) := by
  refine ⟨?_, ?_, ?_⟩
  · intro code entries s' h
    obtain ⟨e, he, -, hent⟩ := employerApplicants_entries s s' employerId entries code h
    refine ⟨e, he, ?_⟩
    intro entry hentry
    rw [hent] at hentry
    obtain ⟨c, -, rfl⟩ := List.mem_map.mp hentry
    simp only [specApplicant]
    rw [applicationsOfEmployer_eq, jobsOf_filter]
  · intro e he hu
    have hmem : ∀ a, a ∈ applicationsOfEmployer s e ↔
        a ∈ s.applications ∧ ∃ job ∈ s.jobs, job.postedBy = some e ∧ job._id = a.job := by
      intro a
      rw [applicationsOfEmployer_eq, List.mem_filter]
      simp
    have hc : ∀ a ∈ applicationsOfEmployer s e, (candidateView s a.candidate).isSome :=
      fun a ha => candidateView_isSome s _ (hu a ((hmem a).mp ha).1 ((hmem a).mp ha).2)
    refine ⟨_, employerApplicants_eq s employerId e he hc, ?_⟩
    intro b hb hjob
    refine ⟨specApplicant s (applicationsOfEmployer s e) b.candidate, ?_, rfl, ?_⟩
    · apply List.mem_map_of_mem
      rw [mem_firstOccurrences]
      exact List.mem_map_of_mem (·.candidate) ((hmem b).mpr ⟨hb, hjob⟩)
    · simp only [specApplicant]
      rw [applicationsOfEmployer_eq, jobsOf_filter]
  · intro e c A B a₁ a₂ he happs hj₁ hj₂ hc₁ hc₂ hu
    have happs' : applicationsOfEmployer s e = [a₁, a₂] := by
      rw [applicationsOfEmployer_eq]; exact happs
    have hc : ∀ a ∈ applicationsOfEmployer s e, (candidateView s a.candidate).isSome := by
      intro a ha
      rw [happs'] at ha
      apply candidateView_isSome
      simp at ha
      rcases ha with rfl | rfl
      · rw [hc₁]; exact hu
      · rw [hc₂]; exact hu
    refine ⟨specApplicant s [a₁, a₂] c, ?_, rfl, ?_⟩
    · rw [employerApplicants_eq s employerId e he hc, happs']
      simp [firstOccurrences, hc₁, hc₂]
    · simp [specApplicant, jobsOf, hc₁, hc₂, hj₁, hj₂]

theorem employerApplicants_jobs_witness :
    ∃ entry,
      employerApplicants
          ⟨[⟨1, "Alice", "alice@acme.io", "pw", .employer⟩, ⟨2, "Dan", "dan@corp.io", "pw", .employer⟩,
            ⟨3, "Bob", "bob@x.io", "pw", .candidate⟩, ⟨4, "Cy", "cy@x.io", "pw", .candidate⟩],
           [⟨5, "Backend Engineer", "Acme", "Pune", "Full-time", "Build it", [], [], none, 0,
              some 1⟩,
            ⟨6, "Clerk", "Corp", "Goa", "Part-time", "File it", [], [], none, 0, some 2⟩,
            ⟨7, "Data Engineer", "Acme", "Pune", "Full-time", "Move it", [], [], none, 0,
              some 1⟩],
           [⟨8, 6, 4, none, none, none, 0⟩, ⟨9, 5, 3, none, none, none, 0⟩,
            ⟨10, 6, 3, none, none, none, 0⟩, ⟨11, 7, 3, none, none, none, 0⟩]⟩
          "000000000000000000000001"
        = (⟨200, .applicants [entry]⟩,
          ⟨[⟨1, "Alice", "alice@acme.io", "pw", .employer⟩, ⟨2, "Dan", "dan@corp.io", "pw", .employer⟩,
            ⟨3, "Bob", "bob@x.io", "pw", .candidate⟩, ⟨4, "Cy", "cy@x.io", "pw", .candidate⟩],
           [⟨5, "Backend Engineer", "Acme", "Pune", "Full-time", "Build it", [], [], none, 0,
              some 1⟩,
            ⟨6, "Clerk", "Corp", "Goa", "Part-time", "File it", [], [], none, 0, some 2⟩,
            ⟨7, "Data Engineer", "Acme", "Pune", "Full-time", "Move it", [], [], none, 0,
              some 1⟩],
           [⟨8, 6, 4, none, none, none, 0⟩, ⟨9, 5, 3, none, none, none, 0⟩,
            ⟨10, 6, 3, none, none, none, 0⟩, ⟨11, 7, 3, none, none, none, 0⟩]⟩)
        ∧ entry._id = 3 ∧ entry.jobs = [5, 7] :=
  (employerApplicants_jobs
    ⟨[⟨1, "Alice", "alice@acme.io", "pw", .employer⟩, ⟨2, "Dan", "dan@corp.io", "pw", .employer⟩,
        ⟨3, "Bob", "bob@x.io", "pw", .candidate⟩, ⟨4, "Cy", "cy@x.io", "pw", .candidate⟩],
      [⟨5, "Backend Engineer", "Acme", "Pune", "Full-time", "Build it", [], [], none, 0,
        some 1⟩,
       ⟨6, "Clerk", "Corp", "Goa", "Part-time", "File it", [], [], none, 0, some 2⟩,
       ⟨7, "Data Engineer", "Acme", "Pune", "Full-time", "Move it", [], [], none, 0,
        some 1⟩],
      [⟨8, 6, 4, none, none, none, 0⟩, ⟨9, 5, 3, none, none, none, 0⟩,
        ⟨10, 6, 3, none, none, none, 0⟩, ⟨11, 7, 3, none, none, none, 0⟩]⟩
    "000000000000000000000001").2.2 1 3 5 7
    ⟨9, 5, 3, none, none, none, 0⟩ ⟨11, 7, 3, none, none, none, 0⟩
    (by decide) (by decide) rfl rfl rfl rfl
    ⟨⟨3, "Bob", "bob@x.io", "pw", .candidate⟩, by simp, rfl⟩

/-- C7 as stated fails: from the empty store, employer Alice signs up and posts two jobs,
and one candidate id that belongs to no stored user applies to the first and then to the
second (each request is answered 201); the applicant pool of Alice's well-formed id is then
answered 500 with a type error, not with one entry whose jobs are the two job ids: the
candidate populates to null and reading its `_id` throws. -/
theorem employerApplicants_unknown_candidate_500 :
    run Store.empty
        [.signup ⟨some "Alice", some "alice@acme.io", some "a-secret", some "employer"⟩,
         .createJob 10 ⟨some "Backend Engineer", some "Acme", some "Pune", some "Full-time",
            some "Build the API", [], [], none, some "000000000000000000000001", none, none⟩,
         .createJob 11 ⟨some "Data Engineer", some "Acme", some "Pune", some "Full-time",
            some "Move the data", [], [], none, some "000000000000000000000001", none, none⟩,
         .applyToJob 20 "000000000000000000000002"
            ⟨some "Bob", none, some "cv", some "000000000000000000000009"⟩,
         .applyToJob 21 "000000000000000000000003"
            ⟨some "Bob", none, some "cv", some "000000000000000000000009"⟩]
      = ⟨[⟨1, "Alice", "alice@acme.io", "a-secret", .employer⟩],
          [⟨2, "Backend Engineer", "Acme", "Pune", "Full-time", "Build the API", [], [], none,
              10, some 1⟩,
           ⟨3, "Data Engineer", "Acme", "Pune", "Full-time", "Move the data", [], [], none, 11,
              some 1⟩],
          [⟨4, 2, 9, some "Bob", none, some "cv", 20⟩, ⟨5, 3, 9, some "Bob", none, some "cv", 21⟩]⟩
      ∧ (employerApplicants
          ⟨[⟨1, "Alice", "alice@acme.io", "a-secret", .employer⟩],
            [⟨2, "Backend Engineer", "Acme", "Pune", "Full-time", "Build the API", [], [], none,
                10, some 1⟩,
             ⟨3, "Data Engineer", "Acme", "Pune", "Full-time", "Move the data", [], [], none,
                11, some 1⟩],
            [⟨4, 2, 9, some "Bob", none, some "cv", 20⟩,
              ⟨5, 3, 9, some "Bob", none, some "cv", 21⟩]⟩
          "000000000000000000000001").1
        = ⟨500, .message "Cannot read properties of null (reading _id)"⟩ := by
  constructor <;> decide

/-- C8: from the empty store, signup of employer Alice, creation of the job "Backend
Engineer" at "Acme" posted by the id Alice's signup returned (the other required job texts
being any non-empty texts), signup of candidate Bob (under another email than Alice's) and
Bob's application to the returned job id with resume "http://x/resume.pdf" and the id Bob's
signup returned are each answered 201; afterwards list-applications of that job answers 200
with exactly one record, of name "Bob" and that resume, and the applicant pool of Alice's id
answers 200 with exactly one entry, Bob's, whose jobs is the one-element sequence of that
job's id. -/
theorem end_to_end_scenario (aliceEmail alicePassword bobEmail bobPassword : String)
    (location type description : String) (responsibilities qualifications : List String)
    (salary appliedEmail : Option String) (now₁ now₂ : Nat)
    (hae : aliceEmail ≠ "") (hap : alicePassword ≠ "") (hbe : bobEmail ≠ "")
    (hbp : bobPassword ≠ "") (hab : aliceEmail ≠ bobEmail)
    (hl : location ≠ "") (ht : type ≠ "") (hd : description ≠ "") :
    ∃ (alice bob : UserView) (job : Job) (application : Application) (s₁ s₂ s₃ s₄ : Store)
      (record : PopulatedApplication),
      signup Store.empty ⟨some "Alice", some aliceEmail, some alicePassword, some "employer"⟩
          = (⟨201, .auth "Signup successful" alice⟩, s₁)
        ∧ createJob s₁ now₁
            ⟨some "Backend Engineer", some "Acme", some location, some type, some description,
              responsibilities, qualifications, salary, some (toHexString alice._id), none, none⟩
          = (⟨201, .job job⟩, s₂)
        ∧ job.title = "Backend Engineer" ∧ job.company = "Acme" ∧ job.postedBy = some alice._id
        ∧ signup s₂ ⟨some "Bob", some bobEmail, some bobPassword, some "candidate"⟩
          = (⟨201, .auth "Signup successful" bob⟩, s₃)
        ∧ applyToJob s₃ now₂ (toHexString job._id)
            ⟨some "Bob", appliedEmail, some "http://x/resume.pdf", some (toHexString bob._id)⟩
          = (⟨201, .applied "Application submitted" application⟩, s₄)
        ∧ listApplications s₄ (toHexString job._id) = (⟨200, .applications [record]⟩, s₄)
        ∧ record.name = some "Bob" ∧ record.resume = some "http://x/resume.pdf"
        ∧ record.job = job._id
        ∧ employerApplicants s₄ (toHexString alice._id)
          = (⟨200, .applicants [⟨bob._id, "Bob", bobEmail, [job._id]⟩]⟩, s₄) := by
  have h1 : castObjectId (toHexString 1) = some 1 := by decide
  have h2 : castObjectId (toHexString 2) = some 2 := by decide
  have h3 : castObjectId (toHexString 3) = some 3 := by decide
  refine ⟨⟨1, "Alice", aliceEmail, "employer"⟩, ⟨3, "Bob", bobEmail, "candidate"⟩,
    ⟨2, "Backend Engineer", "Acme", location, type, description, responsibilities,
      qualifications, salary, now₁, some 1⟩,
    ⟨4, 2, 3, some "Bob", appliedEmail, some "http://x/resume.pdf", now₂⟩,
    ⟨[⟨1, "Alice", aliceEmail, alicePassword, .employer⟩], [], []⟩,
    ⟨[⟨1, "Alice", aliceEmail, alicePassword, .employer⟩],
      [⟨2, "Backend Engineer", "Acme", location, type, description, responsibilities,
        qualifications, salary, now₁, some 1⟩], []⟩,
    ⟨[⟨1, "Alice", aliceEmail, alicePassword, .employer⟩,
        ⟨3, "Bob", bobEmail, bobPassword, .candidate⟩],
      [⟨2, "Backend Engineer", "Acme", location, type, description, responsibilities,
        qualifications, salary, now₁, some 1⟩], []⟩,
    ⟨[⟨1, "Alice", aliceEmail, alicePassword, .employer⟩,
        ⟨3, "Bob", bobEmail, bobPassword, .candidate⟩],
      [⟨2, "Backend Engineer", "Acme", location, type, description, responsibilities,
        qualifications, salary, now₁, some 1⟩],
      [⟨4, 2, 3, some "Bob", appliedEmail, some "http://x/resume.pdf", now₂⟩]⟩,
    ⟨4, 2, some ⟨3, "Bob", bobEmail⟩, some "Bob", appliedEmail, some "http://x/resume.pdf",
      now₂⟩,
    ?_, ?_, rfl, rfl, rfl, ?_, ?_, ?_, rfl, rfl, rfl, ?_⟩
  · simp [signup, hae, hap, findUserByEmail, parseRole, Store.empty, freshId, Store.ids]
  · simp [createJob, JobBody.invalidPaths, hl, ht, hd, h1, freshId, Store.ids]
  · simp [signup, hbe, hbp, findUserByEmail, hab, parseRole, freshId, Store.ids]
  · simp [applyToJob, findJobById, h2, h3, freshId, Store.ids]
  · simp [listApplications, findJobById, h2, populateCandidate, candidateView]
  · simp [employerApplicants, h1, applicationsOfEmployer, populateCandidate, candidateView,
      groupByCandidate, groupStep, pushJob]

theorem end_to_end_scenario_witness :
    ∃ (alice bob : UserView) (job : Job) (application : Application) (s₁ s₂ s₃ s₄ : Store)
      (record : PopulatedApplication),
      signup Store.empty ⟨some "Alice", some "alice@acme.io", some "a-secret", some "employer"⟩
          = (⟨201, .auth "Signup successful" alice⟩, s₁)
        ∧ createJob s₁ 10
            ⟨some "Backend Engineer", some "Acme", some "Pune", some "Full-time",
              some "Build the API", ["Ship"], ["Node"], some "10,00,000",
              some (toHexString alice._id), none, none⟩
          = (⟨201, .job job⟩, s₂)
        ∧ job.title = "Backend Engineer" ∧ job.company = "Acme" ∧ job.postedBy = some alice._id
        ∧ signup s₂ ⟨some "Bob", some "bob@x.io", some "b-secret", some "candidate"⟩
          = (⟨201, .auth "Signup successful" bob⟩, s₃)
        ∧ applyToJob s₃ 20 (toHexString job._id)
            ⟨some "Bob", some "bob@x.io", some "http://x/resume.pdf",
              some (toHexString bob._id)⟩
          = (⟨201, .applied "Application submitted" application⟩, s₄)
        ∧ listApplications s₄ (toHexString job._id) = (⟨200, .applications [record]⟩, s₄)
        ∧ record.name = some "Bob" ∧ record.resume = some "http://x/resume.pdf"
        ∧ record.job = job._id
        ∧ employerApplicants s₄ (toHexString alice._id)
          = (⟨200, .applicants [⟨bob._id, "Bob", "bob@x.io", [job._id]⟩]⟩, s₄) :=
  end_to_end_scenario "alice@acme.io" "a-secret" "bob@x.io" "b-secret" "Pune" "Full-time"
    "Build the API" ["Ship"] ["Node"] (some "10,00,000") (some "bob@x.io") 10 20
    (by decide) (by decide) (by decide) (by decide) (by decide) (by decide) (by decide)
    (by decide)

/-! ## What each handler does to the store -/

theorem findUserByEmail_none (s : Store) (email : String) :
    findUserByEmail s email = none ↔ ∀ u ∈ s.users, u.email ≠ email := by
  unfold findUserByEmail
  rw [List.find?_eq_none]
  simp

theorem signup_store (s : Store) (body : SignupBody) :
    (signup s body).2 = s ∨
      ∃ u : User, (signup s body).2 = { s with users := s.users ++ [u] }
        ∧ ∀ v ∈ s.users, v.email ≠ u.email := by
  obtain ⟨name, email, password, role⟩ := body
  cases name <;> cases email <;> cases password <;> cases role <;> simp [signup]
  rename_i name email password role
  by_cases hempty : name = "" ∨ email = "" ∨ password = "" ∨ role = ""
  · simp [hempty]
  · simp only [hempty, if_false]
    cases hfind : findUserByEmail s email with
    | some u => simp
    | none =>
      cases hrole : parseRole role with
      | none => simp
      | some r =>
        right
        exact ⟨⟨freshId s, name, email, password, r⟩, rfl,
          (findUserByEmail_none s email).mp hfind⟩

theorem createJob_store (s : Store) (now : Nat) (body : JobBody) :
    (createJob s now body).2 = s ∨
      ∃ job : Job, (createJob s now body).2 = { s with jobs := s.jobs ++ [job] } := by
  unfold createJob
  by_cases h : body.invalidPaths = []
  · simp only [h, if_true]
    split
    · left; rfl
    · right; exact ⟨_, rfl⟩
  · simp [h]

theorem applyToJob_store (s : Store) (now : Nat) (id : String) (body : ApplyBody) :
    (applyToJob s now id body).2 = s ∨
      ∃ a : Application,
        (applyToJob s now id body).2 = { s with applications := s.applications ++ [a] }
          ∧ ∃ job ∈ s.jobs, job._id = a.job := by
  unfold applyToJob
  cases hfind : findJobById s id with
  | error e => simp
  | ok found =>
    cases found with
    | none => simp
    | some job =>
      have hmem : job ∈ s.jobs := by
        unfold findJobById at hfind
        cases hcast : castObjectId id with
        | none => simp [hcast] at hfind
        | some j =>
          simp only [hcast, Except.ok.injEq] at hfind
          exact List.mem_of_find?_eq_some hfind
      cases hc : body.candidateId.bind castObjectId with
      | none => simp
      | some candidate =>
        right
        exact ⟨⟨freshId s, job._id, candidate, body.name, body.email, body.resume, now⟩, rfl,
          job, hmem, rfl⟩

theorem login_store (s : Store) (body : LoginBody) : (login s body).2 = s := by
  unfold login
  split <;> rfl

theorem listApplications_store (s : Store) (id : String) : (listApplications s id).2 = s := by
  unfold listApplications
  split <;> rfl

theorem getJob_store (s : Store) (id : String) : (getJob s id).2 = s := by
  unfold getJob
  split <;> rfl

theorem employerApplicants_store (s : Store) (employerId : String) :
    (employerApplicants s employerId).2 = s := by
  unfold employerApplicants
  split
  · rfl
  · simp only
    split <;> rfl

theorem handle_read_store (s : Store) (req : Request) (h : req.isRead = true) :
    (handle s req).2 = s := by
  cases req with
  | signup body => simp [Request.isRead] at h
  | createJob now body => simp [Request.isRead] at h
  | applyToJob now id body => simp [Request.isRead] at h
  | login body => exact login_store s body
  | listApplications id => exact listApplications_store s id
  | listJobs => rfl
  | getJob id => exact getJob_store s id
  | listEmployers => rfl
  | listCandidates => rfl
  | employerApplicants employerId => exact employerApplicants_store s employerId

/-! ## The claims, continued -/

/-- C11: a signup request with non-empty name, email and password, a role that is
"employer" or "candidate", and an email no stored user holds is answered 201; the store
gains exactly one user, appended, carrying the submitted name, email, password and role
under an id no stored document has; the returned user view carries that id, the name, the
email and the role, and (by its type) no password. -/
theorem signup_creates_user (s : Store) (body : SignupBody) (name email password role : String)
    (hn : body.name = some name) (he : body.email = some email)
    (hp : body.password = some password) (hr : body.role = some role)
    (hname : name ≠ "") (hemail : email ≠ "") (hpassword : password ≠ "")
    (hrole : role = "employer" ∨ role = "candidate")
    (hnew : ∀ u ∈ s.users, u.email ≠ email) :
    ∃ (id : ObjectId) (r : Role),
      id ∉ s.ids ∧ r.text = role
        ∧ signup s body =
            (⟨201, .auth "Signup successful" ⟨id, name, email, role⟩⟩,
              { s with users := s.users ++ [⟨id, name, email, password, r⟩] })
        ∧ (signup s body).2.users.length = s.users.length + 1
        ∧ (signup s body).2.jobs = s.jobs
        ∧ (signup s body).2.applications = s.applications := by
  have hfind := (findUserByEmail_none s email).mpr hnew
  have hfresh : freshId s ∉ s.ids := fun hx => absurd (lt_freshId s _ hx) (lt_irrefl _)
  obtain ⟨r, hpr, htext⟩ : ∃ r, parseRole role = some r ∧ r.text = role := by
    rcases hrole with rfl | rfl
    · exact ⟨.employer, by decide, rfl⟩
    · exact ⟨.candidate, by decide, rfl⟩
  have hrne : role ≠ "" := by
    rcases hrole with rfl | rfl <;> decide
  have hsign : signup s body =
      (⟨201, .auth "Signup successful" ⟨freshId s, name, email, role⟩⟩,
        { s with users := s.users ++ [⟨freshId s, name, email, password, r⟩] }) := by
    obtain ⟨bn, be, bp, br⟩ := body
    simp only at hn he hp hr
    subst hn he hp hr
    simp [signup, hname, hemail, hpassword, hrne, hfind, hpr]
  refine ⟨freshId s, r, hfresh, htext, hsign, ?_, ?_, ?_⟩ <;> simp [hsign]

theorem signup_creates_user_witness :
    ∃ (id : ObjectId) (r : Role),
      id ∉ (⟨[⟨1, "Alice", "alice@acme.io", "pw", .employer⟩], [], []⟩ : Store).ids
        ∧ r.text = "candidate"
        ∧ signup ⟨[⟨1, "Alice", "alice@acme.io", "pw", .employer⟩], [], []⟩
            ⟨some "Bob", some "bob@x.io", some "b-secret", some "candidate"⟩ =
            (⟨201, .auth "Signup successful" ⟨id, "Bob", "bob@x.io", "candidate"⟩⟩,
              ⟨[⟨1, "Alice", "alice@acme.io", "pw", .employer⟩]
                ++ [⟨id, "Bob", "bob@x.io", "b-secret", r⟩], [], []⟩) := by
  obtain ⟨id, r, h₁, h₂, h₃, -⟩ := signup_creates_user
    ⟨[⟨1, "Alice", "alice@acme.io", "pw", .employer⟩], [], []⟩
    ⟨some "Bob", some "bob@x.io", some "b-secret", some "candidate"⟩
    "Bob" "bob@x.io" "b-secret" "candidate" rfl rfl rfl rfl
    (by decide) (by decide) (by decide) (Or.inr rfl) (by decide)
  exact ⟨id, r, h₁, h₂, h₃⟩

/-- C13: list-employers answers 200 with exactly the stored users of role employer and
list-candidates answers 200 with exactly the stored users of role candidate, each as its
view of id, name, email and role (the view type has no password), in store order and with
the store left as it was; every stored user appears in exactly one of the two lists. -/
theorem list_users_by_role (s : Store) :
    listEmployers s =
        (⟨200, .users ((s.users.filter (fun u => decide (u.role = .employer))).map
          (fun u => ⟨u._id, u.name, u.email, "employer"⟩))⟩, s)
      ∧ listCandidates s =
        (⟨200, .users ((s.users.filter (fun u => decide (u.role = .candidate))).map
          (fun u => ⟨u._id, u.name, u.email, "candidate"⟩))⟩, s)
      ∧ (∀ v, v ∈ findUsersByRole s .employer ↔
          ∃ u ∈ s.users, u.role = .employer ∧ v = ⟨u._id, u.name, u.email, u.role.text⟩)
      ∧ (∀ v, v ∈ findUsersByRole s .candidate ↔
          ∃ u ∈ s.users, u.role = .candidate ∧ v = ⟨u._id, u.name, u.email, u.role.text⟩)
      ∧ ∀ u ∈ s.users,
          (u.view ∈ findUsersByRole s .employer ∧ u.view ∉ findUsersByRole s .candidate)
            ∨ (u.view ∈ findUsersByRole s .candidate ∧ u.view ∉ findUsersByRole s .employer) := by
  have hmem : ∀ (role : Role) (v : UserView), v ∈ findUsersByRole s role ↔
      ∃ u ∈ s.users, u.role = role ∧ v = ⟨u._id, u.name, u.email, u.role.text⟩ := by
    intro role v
    simp only [findUsersByRole, List.mem_map, List.mem_filter, decide_eq_true_eq, User.view]
    constructor
    · rintro ⟨u, ⟨hu, hr⟩, rfl⟩
      exact ⟨u, hu, hr, rfl⟩
    · rintro ⟨u, hu, hr, rfl⟩
      exact ⟨u, ⟨hu, hr⟩, rfl⟩
  have hmap : ∀ (role : Role), findUsersByRole s role =
      (s.users.filter (fun u => decide (u.role = role))).map
        (fun u => ⟨u._id, u.name, u.email, role.text⟩) := by
    intro role
    unfold findUsersByRole
    apply List.map_congr_left
    intro u hu
    have : u.role = role := by simpa using (List.mem_filter.mp hu).2
    simp [User.view, this]
  have hrole : ∀ (u : User) (role : Role), u.view ∈ findUsersByRole s role → u.role = role := by
    intro u role h
    obtain ⟨w, -, hw, hv⟩ := (hmem role _).mp h
    have ht : u.role.text = w.role.text := by
      have := congrArg UserView.role hv
      simpa [User.view] using this
    rw [← hw]
    cases hu : u.role <;> cases hwr : w.role <;> simp [hu, hwr, Role.text] at ht ⊢
  refine ⟨?_, ?_, hmem .employer, hmem .candidate, ?_⟩
  · simp only [listEmployers, hmap .employer, Role.text]
  · simp only [listCandidates, hmap .candidate, Role.text]
  · intro u hu
    cases hr : u.role with
    | employer =>
      left
      refine ⟨(hmem .employer _).mpr ⟨u, hu, hr, rfl⟩, fun h => ?_⟩
      have := hrole u .candidate h
      rw [hr] at this
      cases this
    | candidate =>
      right
      refine ⟨(hmem .candidate _).mpr ⟨u, hu, hr, rfl⟩, fun h => ?_⟩
      have := hrole u .employer h
      rw [hr] at this
      cases this

theorem populateCandidate_of_user (s : Store) (a : Application)
    (h : ∃ u ∈ s.users, u._id = a.candidate) :
    ∃ u ∈ s.users, u._id = a.candidate ∧
      populateCandidate s a =
        ⟨a._id, a.job, some ⟨u._id, u.name, u.email⟩, a.name, a.email, a.resume, a.appliedAt⟩ := by
  obtain ⟨w, hw, hid⟩ := h
  cases hf : s.users.find? (fun u => decide (u._id = a.candidate)) with
  | none =>
    rw [List.find?_eq_none] at hf
    have := hf w hw
    simp [hid] at this
  | some u =>
    refine ⟨u, List.mem_of_find?_eq_some hf, by simpa using List.find?_some hf, ?_⟩
    simp [populateCandidate, candidateView, hf]

/-- C14, as the code has it: for a path segment that is a well-formed id `j`, the
list-applications handler answers 404 when no stored job has id `j`, and otherwise answers
200 with exactly the stored applications whose job is `j`, in store order, each with its
candidate populated: for an application whose candidate is a stored user, the candidate
becomes that user's id, name and email only.  The store is left as it was. -/
theorem listApplications_of_job (s : Store) (id : String) (j : ObjectId)
    (hid : castObjectId id = some j) :
    ((∀ job ∈ s.jobs, job._id ≠ j) →
        listApplications s id = (⟨404, .message "Job not found"⟩, s))
      ∧ ((∃ job ∈ s.jobs, job._id = j) →
        listApplications s id =
            (⟨200, .applications
              ((s.applications.filter (fun a => decide (a.job = j))).map (populateCandidate s))⟩,
              s)
          ∧ ∀ a ∈ s.applications, a.job = j → (∃ u ∈ s.users, u._id = a.candidate) →
              ∃ u ∈ s.users, u._id = a.candidate ∧
                populateCandidate s a =
                  ⟨a._id, a.job, some ⟨u._id, u.name, u.email⟩, a.name, a.email, a.resume,
                    a.appliedAt⟩) := by
  constructor
  · intro hno
    simp [listApplications, findJobById_cast s id j hid, findJob_none s j hno]
  · intro hjob
    obtain ⟨job, hfind, hjid, -⟩ := findJob_some s j hjob
    refine ⟨?_, fun a _ _ hu => populateCandidate_of_user s a hu⟩
    simp [listApplications, findJobById_cast s id j hid, hfind, hjid]

theorem listApplications_of_job_witness :
    listApplications
        ⟨[⟨2, "Bob", "bob@x.io", "pw", .candidate⟩],
          [⟨1, "Backend Engineer", "Acme", "Pune", "Full-time", "Build it", [], [], none, 0,
            none⟩,
           ⟨3, "Data Engineer", "Acme", "Pune", "Full-time", "Move it", [], [], none, 0, none⟩],
          [⟨4, 1, 2, some "Bob", none, some "cv", 9⟩, ⟨5, 3, 2, some "Bob", none, some "cv", 9⟩]⟩
        "000000000000000000000001"
      = (⟨200, .applications [⟨4, 1, some ⟨2, "Bob", "bob@x.io"⟩, some "Bob", none, some "cv", 9⟩]⟩,
          ⟨[⟨2, "Bob", "bob@x.io", "pw", .candidate⟩],
            [⟨1, "Backend Engineer", "Acme", "Pune", "Full-time", "Build it", [], [], none, 0,
              none⟩,
             ⟨3, "Data Engineer", "Acme", "Pune", "Full-time", "Move it", [], [], none, 0,
              none⟩],
            [⟨4, 1, 2, some "Bob", none, some "cv", 9⟩,
              ⟨5, 3, 2, some "Bob", none, some "cv", 9⟩]⟩) :=
  ((listApplications_of_job _ "000000000000000000000001" 1 (by decide)).2
    ⟨_, List.mem_cons_self _ _, rfl⟩).1.trans (by decide)

/-- C14 as stated fails: no stored job has the id "abc" (the store is empty), yet the
list-applications handler answers 500, not 404, because the cast of the path segment to an
id throws into the catch. -/
theorem listApplications_malformed_id_not_404 :
    (∀ job ∈ Store.empty.jobs, castObjectId "abc" ≠ some job._id)
      ∧ (listApplications Store.empty "abc").1.status = 500
      ∧ ¬ (∀ (s : Store) (id : String),
            (∀ job ∈ s.jobs, castObjectId id ≠ some job._id) →
            (listApplications s id).1.status = 404) := by
  refine ⟨by decide, by decide, fun h => ?_⟩
  have := h Store.empty "abc" (by decide)
  revert this
  decide

theorem createJob_valid (s : Store) (now : Nat) (body : JobBody)
    (hvalid : body.invalidPaths = []) (j : ObjectId)
    (hid : (body._id.bind castObjectId).getD (freshId s) = j) :
    createJob s now body =
      if s.jobs.any (fun job => decide (job._id = j)) then
        (failure 400 (.duplicateKey "jobs" j), s)
      else
        (⟨201, .job ⟨j, body.title.getD "", body.company.getD "", body.location.getD "",
            body.type.getD "", body.description.getD "", body.responsibilities,
            body.qualifications, body.salary, body.postedDate.getD now,
            body.postedBy.bind castObjectId⟩⟩,
          { s with jobs := s.jobs ++ [⟨j, body.title.getD "", body.company.getD "",
            body.location.getD "", body.type.getD "", body.description.getD "",
            body.responsibilities, body.qualifications, body.salary, body.postedDate.getD now,
            body.postedBy.bind castObjectId⟩] }) := by
  subst hid
  unfold createJob
  rw [if_pos hvalid]

/-- C17, as the code has it: every read operation (list jobs, get job, list applications,
list employers, list candidates, applicant pool) and login returns the store it was given,
so the same read issued twice gives the same response both times; whereas an apply that
succeeds, or a create-job that succeeds with a body carrying no `_id`, issued again with
the same body, succeeds again and leaves two stored records with distinct ids.  A
create-job that succeeds with a body carrying an `_id` is, issued again with the same body,
answered 400 and leaves the one record it stored. -/
theorem reads_idempotent_creates_not (s : Store) :
    (∀ req : Request, req.isRead = true →
        (handle s req).2 = s ∧ handle (handle s req).2 req = handle s req)
      ∧ (∀ (now₁ now₂ : Nat) (body : JobBody), body._id = none →
          (createJob s now₁ body).1.status = 201 →
          ∃ j₁ j₂ : Job,
            createJob s now₁ body = (⟨201, .job j₁⟩, { s with jobs := s.jobs ++ [j₁] })
              ∧ createJob (createJob s now₁ body).2 now₂ body
                = (⟨201, .job j₂⟩, { s with jobs := s.jobs ++ [j₁, j₂] })
              ∧ j₁._id ≠ j₂._id)
      ∧ (∀ (now₁ now₂ : Nat) (body : JobBody) (raw : String), body._id = some raw →
          (createJob s now₁ body).1.status = 201 →
          ∃ j₁ : Job,
            createJob s now₁ body = (⟨201, .job j₁⟩, { s with jobs := s.jobs ++ [j₁] })
              ∧ castObjectId raw = some j₁._id
              ∧ (createJob (createJob s now₁ body).2 now₂ body).1.status = 400
              ∧ (createJob (createJob s now₁ body).2 now₂ body).2
                = { s with jobs := s.jobs ++ [j₁] })
      ∧ (∀ (now₁ now₂ : Nat) (id : String) (body : ApplyBody),
          (applyToJob s now₁ id body).1.status = 201 →
          ∃ a₁ a₂ : Application,
            applyToJob s now₁ id body
                = (⟨201, .applied "Application submitted" a₁⟩,
                    { s with applications := s.applications ++ [a₁] })
              ∧ applyToJob (applyToJob s now₁ id body).2 now₂ id body
                = (⟨201, .applied "Application submitted" a₂⟩,
                    { s with applications := s.applications ++ [a₁, a₂] })
              ∧ a₁._id ≠ a₂._id) := by
  refine ⟨?_, ?_, ?_, ?_⟩
  · intro req hread
    have h := handle_read_store s req hread
    exact ⟨h, by rw [h]⟩
  · intro now₁ now₂ body hid hok
    have hvalid : body.invalidPaths = [] := by
      by_contra hbad
      simp [createJob, hbad, failure] at hok
    let j₁ : Job :=
      { _id := freshId s
        title := body.title.getD ""
        company := body.company.getD ""
        location := body.location.getD ""
        type := body.type.getD ""
        description := body.description.getD ""
        responsibilities := body.responsibilities
        qualifications := body.qualifications
        salary := body.salary
        postedDate := body.postedDate.getD now₁
        postedBy := body.postedBy.bind castObjectId }
    let s₁ : Store := { s with jobs := s.jobs ++ [j₁] }
    let j₂ : Job := { j₁ with _id := freshId s₁, postedDate := body.postedDate.getD now₂ }
    have h₁ : createJob s now₁ body = (⟨201, .job j₁⟩, s₁) := by
      rw [createJob_valid s now₁ body hvalid (freshId s) (by simp [hid]), jobs_any_freshId s]
      rfl
    have h₂ : createJob s₁ now₂ body
        = (⟨201, .job j₂⟩, { s with jobs := s.jobs ++ [j₁, j₂] }) := by
      rw [createJob_valid s₁ now₂ body hvalid (freshId s₁) (by simp [hid]),
        jobs_any_freshId s₁]
      simp [j₁, j₂, s₁]
    have hmem : j₁._id ∈ s₁.ids := by simp [Store.ids, s₁]
    refine ⟨j₁, j₂, h₁, ?_, ne_of_lt (lt_freshId s₁ _ hmem)⟩
    rw [h₁]; exact h₂
  · intro now₁ now₂ body raw hid hok
    have hvalid : body.invalidPaths = [] := by
      by_contra hbad
      simp [createJob, hbad, failure] at hok
    obtain ⟨j, hj⟩ : ∃ j, castObjectId raw = some j := by
      cases hc : castObjectId raw with
      | some j => exact ⟨j, rfl⟩
      | none =>
        exfalso
        apply absurd hvalid
        simp [JobBody.invalidPaths, hid, hc]
    let j₁ : Job :=
      { _id := j
        title := body.title.getD ""
        company := body.company.getD ""
        location := body.location.getD ""
        type := body.type.getD ""
        description := body.description.getD ""
        responsibilities := body.responsibilities
        qualifications := body.qualifications
        salary := body.salary
        postedDate := body.postedDate.getD now₁
        postedBy := body.postedBy.bind castObjectId }
    let s₁ : Store := { s with jobs := s.jobs ++ [j₁] }
    have hidj : ∀ s' : Store, (body._id.bind castObjectId).getD (freshId s') = j := by
      intro s'
      simp [hid, hj]
    by_cases hdup : (s.jobs.any fun job => decide (job._id = j)) = true
    · rw [createJob_valid s now₁ body hvalid j (hidj s), hdup] at hok
      simp [failure] at hok
    · have hdup' : (s.jobs.any fun job => decide (job._id = j)) = false := by
        simpa using hdup
      have h₁ : createJob s now₁ body = (⟨201, .job j₁⟩, s₁) := by
        rw [createJob_valid s now₁ body hvalid j (hidj s), hdup']
        rfl
      have hdup₁ : (s₁.jobs.any fun job => decide (job._id = j)) = true := by
        rw [List.any_eq_true]
        exact ⟨j₁, by simp [s₁], by simp [j₁]⟩
      have h₂ : createJob s₁ now₂ body = (failure 400 (.duplicateKey "jobs" j), s₁) := by
        rw [createJob_valid s₁ now₂ body hvalid j (hidj s₁), hdup₁]
        rfl
      refine ⟨j₁, h₁, hj, ?_, ?_⟩
      · rw [h₁, h₂]; rfl
      · rw [h₁, h₂]
  · intro now₁ now₂ id body hok
    cases hfind : findJobById s id with
    | error e => simp [applyToJob, hfind, failure] at hok
    | ok found =>
      cases found with
      | none => simp [applyToJob, hfind] at hok
      | some job =>
        cases hc : body.candidateId.bind castObjectId with
        | none => simp [applyToJob, hfind, hc, failure] at hok
        | some c =>
          let a₁ : Application :=
            ⟨freshId s, job._id, c, body.name, body.email, body.resume, now₁⟩
          let s₁ : Store := { s with applications := s.applications ++ [a₁] }
          let a₂ : Application :=
            ⟨freshId s₁, job._id, c, body.name, body.email, body.resume, now₂⟩
          have hfind₁ : findJobById s₁ id = .ok (some job) := by
            rw [← hfind]; rfl
          have h₁ : applyToJob s now₁ id body
              = (⟨201, .applied "Application submitted" a₁⟩, s₁) := by
            simp [applyToJob, hfind, hc, a₁, s₁]
          have h₂ : applyToJob s₁ now₂ id body
              = (⟨201, .applied "Application submitted" a₂⟩,
                  { s with applications := s.applications ++ [a₁, a₂] }) := by
            simp [applyToJob, hfind₁, hc, a₂, s₁]
          have hmem : a₁._id ∈ s₁.ids := by simp [Store.ids, s₁]
          refine ⟨a₁, a₂, h₁, ?_, ne_of_lt (lt_freshId s₁ _ hmem)⟩
          rw [h₁]; exact h₂

/-- C17 as stated fails for create-job: a body that carries an `_id` is accepted (201) and
stored under that id; issued again, the same body is answered 400 (duplicate key) and the
store still holds the one record, not two. -/
theorem createJob_same_id_twice :
    (createJob Store.empty 7
        ⟨some "Backend Engineer", some "Acme", some "Pune", some "Full-time", some "Build it",
          [], [], none, none, some "00000000000000000000000a", none⟩).1.status = 201
      ∧ (createJob
          (createJob Store.empty 7
            ⟨some "Backend Engineer", some "Acme", some "Pune", some "Full-time",
              some "Build it", [], [], none, none, some "00000000000000000000000a", none⟩).2 8
          ⟨some "Backend Engineer", some "Acme", some "Pune", some "Full-time", some "Build it",
            [], [], none, none, some "00000000000000000000000a", none⟩).1.status = 400
      ∧ (createJob
          (createJob Store.empty 7
            ⟨some "Backend Engineer", some "Acme", some "Pune", some "Full-time",
              some "Build it", [], [], none, none, some "00000000000000000000000a", none⟩).2 8
          ⟨some "Backend Engineer", some "Acme", some "Pune", some "Full-time", some "Build it",
            [], [], none, none, some "00000000000000000000000a", none⟩).2.jobs
        = [⟨10, "Backend Engineer", "Acme", "Pune", "Full-time", "Build it", [], [], none, 7,
            none⟩] := by
  refine ⟨by decide, by decide, by decide⟩

/-! ## Invariants of the reachable stores -/

theorem handle_users (s : Store) (req : Request) :
    (handle s req).2.users = s.users ∨
      ∃ u : User, (handle s req).2.users = s.users ++ [u] ∧ ∀ v ∈ s.users, v.email ≠ u.email := by
  cases req with
  | signup body =>
    rcases signup_store s body with h | ⟨u, h, hu⟩
    · left; simp [handle, h]
    · right; exact ⟨u, by simp [handle, h], hu⟩
  | createJob now body =>
    left
    rcases createJob_store s now body with h | ⟨j, h⟩ <;> simp [handle, h]
  | applyToJob now id body =>
    left
    rcases applyToJob_store s now id body with h | ⟨a, h, -⟩ <;> simp [handle, h]
  | login body => left; rw [handle_read_store s (.login body) rfl]
  | listApplications id => left; rw [handle_read_store s (.listApplications id) rfl]
  | listJobs => left; rfl
  | getJob id => left; rw [handle_read_store s (.getJob id) rfl]
  | listEmployers => left; rfl
  | listCandidates => left; rfl
  | employerApplicants employerId => left; rw [handle_read_store s (.employerApplicants employerId) rfl]

theorem handle_jobs (s : Store) (req : Request) :
    ∃ added : List Job, (handle s req).2.jobs = s.jobs ++ added := by
  cases req with
  | signup body =>
    rcases signup_store s body with h | ⟨u, h, -⟩ <;> exact ⟨[], by simp [handle, h]⟩
  | createJob now body =>
    rcases createJob_store s now body with h | ⟨j, h⟩
    · exact ⟨[], by simp [handle, h]⟩
    · exact ⟨[j], by simp [handle, h]⟩
  | applyToJob now id body =>
    rcases applyToJob_store s now id body with h | ⟨a, h, -⟩ <;> exact ⟨[], by simp [handle, h]⟩
  | login body => exact ⟨[], by rw [handle_read_store s (.login body) rfl]; simp⟩
  | listApplications id => exact ⟨[], by rw [handle_read_store s (.listApplications id) rfl]; simp⟩
  | listJobs => exact ⟨[], by simp [handle, listJobs]⟩
  | getJob id => exact ⟨[], by rw [handle_read_store s (.getJob id) rfl]; simp⟩
  | listEmployers => exact ⟨[], by simp [handle, listEmployers]⟩
  | listCandidates => exact ⟨[], by simp [handle, listCandidates]⟩
  | employerApplicants employerId => exact ⟨[], by rw [handle_read_store s (.employerApplicants employerId) rfl]; simp⟩

theorem handle_applications (s : Store) (req : Request) :
    (handle s req).2.applications = s.applications ∨
      ∃ a : Application, (handle s req).2.applications = s.applications ++ [a]
        ∧ ∃ job ∈ s.jobs, job._id = a.job := by
  cases req with
  | signup body =>
    left
    rcases signup_store s body with h | ⟨u, h, -⟩ <;> simp [handle, h]
  | createJob now body =>
    left
    rcases createJob_store s now body with h | ⟨j, h⟩ <;> simp [handle, h]
  | applyToJob now id body =>
    rcases applyToJob_store s now id body with h | ⟨a, h, hjob⟩
    · left; simp [handle, h]
    · right; exact ⟨a, by simp [handle, h], hjob⟩
  | login body => left; rw [handle_read_store s (.login body) rfl]
  | listApplications id => left; rw [handle_read_store s (.listApplications id) rfl]
  | listJobs => left; rfl
  | getJob id => left; rw [handle_read_store s (.getJob id) rfl]
  | listEmployers => left; rfl
  | listCandidates => left; rfl
  | employerApplicants employerId => left; rw [handle_read_store s (.employerApplicants employerId) rfl]

theorem run_emails_nodup (reqs : List Request) :
    ∀ s : Store, (s.users.map (·.email)).Nodup → ((run s reqs).users.map (·.email)).Nodup := by
  induction reqs with
  | nil => intro s h; exact h
  | cons req rest ih =>
    intro s h
    apply ih
    rcases handle_users s req with hu | ⟨u, hu, hnew⟩
    · rw [hu]; exact h
    · rw [hu, List.map_append, List.map_singleton]
      refine List.Nodup.append h (List.nodup_singleton _) ?_
      intro e he hu'
      obtain ⟨v, hv, rfl⟩ := List.mem_map.mp he
      exact hnew v hv (List.mem_singleton.mp hu')

theorem run_applications_job (reqs : List Request) :
    ∀ s : Store, (∀ a ∈ s.applications, ∃ job ∈ s.jobs, job._id = a.job) →
      ∀ a ∈ (run s reqs).applications, ∃ job ∈ (run s reqs).jobs, job._id = a.job := by
  induction reqs with
  | nil => intro s h; exact h
  | cons req rest ih =>
    intro s h
    apply ih
    obtain ⟨added, hjobs⟩ := handle_jobs s req
    intro a ha
    have hold : ∀ b ∈ s.applications, ∃ job ∈ (handle s req).2.jobs, job._id = b.job := by
      intro b hb
      obtain ⟨job, hjob, hid⟩ := h b hb
      exact ⟨job, by rw [hjobs]; exact List.mem_append_left _ hjob, hid⟩
    rcases handle_applications s req with happ | ⟨b, happ, job, hjob, hid⟩
    · rw [happ] at ha; exact hold a ha
    · rw [happ] at ha
      rcases List.mem_append.mp ha with ha | ha
      · exact hold a ha
      · rw [List.mem_singleton.mp ha]
        exact ⟨job, by rw [hjobs]; exact List.mem_append_left _ hjob, hid⟩

/-- C16: in every store reached from the empty store by a finite sequence of API requests
(any routes, any inputs), the emails of the stored users are pairwise different: two
stored users with the same email are the same user. -/
theorem reachable_emails_unique (reqs : List Request) :
    ((run Store.empty reqs).users.map (·.email)).Nodup
      ∧ ∀ u ∈ (run Store.empty reqs).users, ∀ v ∈ (run Store.empty reqs).users,
          u.email = v.email → u = v := by
  have h := run_emails_nodup reqs Store.empty (by simp [Store.empty])
  exact ⟨h, fun u hu v hv he => List.inj_on_of_nodup_map h hu hv he⟩

/-- C18: in every store reached from the empty store by a finite sequence of API requests,
the job field of every stored application is the id of a stored job. -/
theorem reachable_application_job (reqs : List Request) :
    ∀ a ∈ (run Store.empty reqs).applications,
      ∃ job ∈ (run Store.empty reqs).jobs, job._id = a.job :=
  run_applications_job reqs Store.empty (by simp [Store.empty])

theorem reachable_application_job_witness :
    ∃ job ∈ (run Store.empty
        [.signup ⟨some "Alice", some "alice@acme.io", some "a-secret", some "employer"⟩,
         .createJob 10 ⟨some "Backend Engineer", some "Acme", some "Pune", some "Full-time",
            some "Build the API", [], [], none, some "000000000000000000000001", none, none⟩,
         .signup ⟨some "Bob", some "bob@x.io", some "b-secret", some "candidate"⟩,
         .applyToJob 20 "000000000000000000000002"
            ⟨some "Bob", none, some "cv", some "000000000000000000000003"⟩,
         .getJob "abc"]).jobs,
      job._id = (⟨4, 2, 3, some "Bob", none, some "cv", 20⟩ : Application).job :=
  reachable_application_job _ ⟨4, 2, 3, some "Bob", none, some "cv", 20⟩ (by decide)

/-! ## Status codes -/

/-- A handler answers 500 only from its `catch`: with the message of an error thrown by
the data layer. -/
theorem handle_500_thrown (s : Store) (req : Request) (h : (handle s req).1.status = 500) :
    ∃ e : StoreError, (handle s req).1 = failure 500 e := by
  cases req with
  | signup body =>
    obtain ⟨name, email, password, role⟩ := body
    cases name <;> cases email <;> cases password <;> cases role <;>
      simp [handle, signup] at h ⊢
    rename_i name email password role
    by_cases hempty : name = "" ∨ email = "" ∨ password = "" ∨ role = ""
    · simp [hempty] at h
    · simp only [hempty, if_false] at h ⊢
      cases hfind : findUserByEmail s email with
      | some u => simp [hfind] at h
      | none =>
        cases hrole : parseRole role with
        | none => exact ⟨_, rfl⟩
        | some r => simp [hfind, hrole] at h
  | login body =>
    simp only [handle, login] at h ⊢
    split at h <;> simp at h
  | createJob now body =>
    simp only [handle, createJob] at h ⊢
    split at h
    · split at h <;> simp [failure] at h
    · simp [failure] at h
  | applyToJob now id body =>
    simp only [handle, applyToJob] at h ⊢
    split
    · exact ⟨_, rfl⟩
    · rename_i hf; simp [hf] at h
    · rename_i job hf
      simp only [hf] at h ⊢
      split
      · exact ⟨_, rfl⟩
      · rename_i hc; simp [hc] at h
  | listApplications id =>
    simp only [handle, listApplications] at h ⊢
    split
    · exact ⟨_, rfl⟩
    · rename_i hf; simp [hf] at h
    · rename_i job hf; simp [hf] at h
  | listJobs => simp [handle, listJobs] at h
  | getJob id =>
    simp only [handle, getJob] at h ⊢
    split
    · exact ⟨_, rfl⟩
    · rename_i hf; simp [hf] at h
    · rename_i job hf; simp [hf] at h
  | listEmployers => simp [handle, listEmployers] at h
  | listCandidates => simp [handle, listCandidates] at h
  | employerApplicants employerId =>
    simp only [handle, employerApplicants] at h ⊢
    split
    · exact ⟨_, rfl⟩
    · rename_i e he
      simp only [he] at h ⊢
      split
      · exact ⟨_, rfl⟩
      · rename_i hg; simp [hg] at h

/-- C12, as the code has it: a request that fails at one of the checks the handlers make
themselves is answered in the range 400-499: signup with an absent or empty field (400) or
with an already registered email (400), login without a user matching both texts (401),
get-job, apply and list-applications with a well-formed id that no job has (404), and
create-job with a required text absent or empty or with a `postedBy` that is no id (400).
Status 500 is returned only with the message of an error thrown by the data layer. -/
theorem client_error_status (s : Store) :
    (∀ body : SignupBody,
        (absentOrEmpty body.name ∨ absentOrEmpty body.email ∨ absentOrEmpty body.password
          ∨ absentOrEmpty body.role) → (signup s body).1.status = 400)
      ∧ (∀ (body : SignupBody) (email : String), body.email = some email →
          (∃ u ∈ s.users, u.email = email) → (signup s body).1.status = 400)
      ∧ (∀ email password : String,
          (¬ ∃ u ∈ s.users, u.email = email ∧ u.password = password) →
          (login s ⟨.text email, .text password⟩).1.status = 401)
      ∧ (∀ body : LoginBody, findUserByCredentials s body.email body.password = none →
          (login s body).1.status = 401)
      ∧ (∀ (id : String) (j : ObjectId), castObjectId id = some j →
          (∀ job ∈ s.jobs, job._id ≠ j) →
          (getJob s id).1.status = 404 ∧ (listApplications s id).1.status = 404
            ∧ ∀ (now : Nat) (body : ApplyBody), (applyToJob s now id body).1.status = 404)
      ∧ (∀ (now : Nat) (body : JobBody),
          (absentOrEmpty body.title ∨ absentOrEmpty body.company ∨ absentOrEmpty body.location
            ∨ absentOrEmpty body.type ∨ absentOrEmpty body.description
            ∨ ∃ raw, body.postedBy = some raw ∧ castObjectId raw = none) →
          (createJob s now body).1.status = 400)
      ∧ (∀ req : Request, (handle s req).1.status = 500 →
          ∃ e : StoreError, (handle s req).1 = ⟨500, .message e.message⟩) := by
  refine ⟨?_, ?_, ?_, ?_, ?_, ?_, fun req h => handle_500_thrown s req h⟩
  · intro body h
    obtain ⟨name, email, password, role⟩ := body
    unfold absentOrEmpty at h
    simp only at h
    cases name <;> cases email <;> cases password <;> cases role <;> simp [signup] at h ⊢
    rename_i name email password role
    rcases h with h | h | h | h <;> simp [h]
  · intro body email he hreg
    obtain ⟨u, hu⟩ := findUserByEmail_of_mem s email hreg
    obtain ⟨bn, be, bp, br⟩ := body
    simp only at he
    subst he
    cases bn <;> cases bp <;> cases br <;> simp [signup]
    rename_i name password role
    by_cases hempty : name = "" ∨ email = "" ∨ password = "" ∨ role = ""
    · simp [hempty]
    · simp [hempty, hu]
  · intro email password hno
    have : findUserByCredentials s (.text email) (.text password) = none := by
      rw [findUserByCredentials_none]
      simpa only [satisfiedBy_text] using hno
    simp [login, this]
  · intro body hnone
    simp [login, hnone]
  · intro id j hid hno
    have hf := findJobById_cast s id j hid
    rw [findJob_none s j hno] at hf
    refine ⟨by simp [getJob, hf], by simp [listApplications, hf], fun now body => ?_⟩
    simp [applyToJob, hf]
  · intro now body h
    have hbad : body.invalidPaths ≠ [] := by
      unfold JobBody.invalidPaths
      unfold absentOrEmpty at h
      rcases h with h | h | h | h | h | ⟨raw, hraw, hcast⟩
      · rcases h with h | h <;> simp [h]
      · rcases h with h | h <;> simp [h]
      · rcases h with h | h <;> simp [h]
      · rcases h with h | h <;> simp [h]
      · rcases h with h | h <;> simp [h]
      · simp [hraw, hcast]
    simp [createJob, hbad, failure]

/-- C12 as stated fails on its own examples: a signup with all fields present and the role
"admin", an apply to an existing job without candidateId (or with an empty one), and a
get-job with the id "abc" are client errors, and each is answered 500. -/
theorem client_error_answered_500 :
    (signup Store.empty ⟨some "Eve", some "eve@x.io", some "pw", some "admin"⟩).1.status = 500
      ∧ (applyToJob ⟨[], [⟨1, "Backend Engineer", "Acme", "Pune", "Full-time", "Build it", [],
            [], none, 0, none⟩], []⟩ 5 "000000000000000000000001"
          ⟨some "Bob", some "bob@x.io", some "cv", none⟩).1.status = 500
      ∧ (applyToJob ⟨[], [⟨1, "Backend Engineer", "Acme", "Pune", "Full-time", "Build it", [],
            [], none, 0, none⟩], []⟩ 5 "000000000000000000000001"
          ⟨some "Bob", some "bob@x.io", some "cv", some ""⟩).1.status = 500
      ∧ (getJob Store.empty "abc").1.status = 500
      ∧ ¬ (400 ≤ (getJob Store.empty "abc").1.status
            ∧ (getJob Store.empty "abc").1.status ≤ 499) := by
  decide

/-! ## Client application: search -/

theorem includesChars_iff (text search : List Char) :
    includesChars text search = true ↔ search <:+: text := by
  induction text with
  | nil =>
    cases search <;> simp [includesChars]
  | cons c cs ih =>
    simp only [includesChars, Bool.or_eq_true, ih, List.infix_cons_iff,
      List.isPrefixOf_iff_prefix]

/-- C15: handleSearch replaces the held job list with exactly the held jobs, in their
original relative order, for which the lower-cased query is a substring of the lower-cased
title, or company, or location, and sets currentPage to 'listings'; nothing else of the
state changes, a job matching on no field is dropped and no job is added or altered. -/
theorem handleSearch_filters (toLowerCase : String → String) (st : AppState) (query : String) :
    (handleSearch toLowerCase st query).jobs =
        st.jobs.filter (fun job => decide (
          (toLowerCase query).data <:+: (toLowerCase job.title).data
            ∨ (toLowerCase query).data <:+: (toLowerCase job.company).data
            ∨ (toLowerCase query).data <:+: (toLowerCase job.location).data))
      ∧ (handleSearch toLowerCase st query).currentPage = "listings"
      ∧ (handleSearch toLowerCase st query).jobs.Sublist st.jobs
      ∧ (∀ job, job ∈ (handleSearch toLowerCase st query).jobs ↔
          job ∈ st.jobs ∧
            ((toLowerCase query).data <:+: (toLowerCase job.title).data
              ∨ (toLowerCase query).data <:+: (toLowerCase job.company).data
              ∨ (toLowerCase query).data <:+: (toLowerCase job.location).data))
      ∧ handleSearch toLowerCase st query =
          { st with jobs := (handleSearch toLowerCase st query).jobs,
                    currentPage := "listings" } := by
  have hjobs : (handleSearch toLowerCase st query).jobs =
      st.jobs.filter (fun job => decide (
        (toLowerCase query).data <:+: (toLowerCase job.title).data
          ∨ (toLowerCase query).data <:+: (toLowerCase job.company).data
          ∨ (toLowerCase query).data <:+: (toLowerCase job.location).data)) := by
    simp only [handleSearch]
    apply List.filter_congr
    intro job _
    simp only [includes, Bool.decide_or, Bool.or_assoc, ← includesChars_iff, Bool.decide_eq_true]
  refine ⟨hjobs, rfl, ?_, ?_, rfl⟩
  · rw [hjobs]; exact List.filter_sublist _
  · intro job
    rw [hjobs, List.mem_filter]
    simp

/-! ## Client application: salary -/

theorem foldl_decimal (digits : List Char) :
    ∀ acc : Nat,
      digits.foldl (fun acc c => 10 * acc + (c.toNat - 48)) acc
        = acc * 10 ^ digits.length + digitsNumber (digits.map (fun c => c.toNat - 48)) := by
  induction digits with
  | nil => intro acc; simp [digitsNumber]
  | cons c cs ih =>
    intro acc
    simp only [List.foldl_cons, ih, List.map_cons, digitsNumber, List.length_cons,
      List.length_map]
    ring

theorem decimalValue_eq (digits : List Char) :
    decimalValue digits = digitsNumber (digits.map (fun c => c.toNat - 48)) := by
  simp [decimalValue, foldl_decimal]

theorem digitsNumber_lt (ds : List Nat) (h : ∀ d ∈ ds, d ≤ 9) :
    digitsNumber ds < 10 ^ ds.length := by
  induction ds with
  | nil => simp [digitsNumber]
  | cons d ds ih =>
    have hd : d ≤ 9 := h d (List.mem_cons_self _ _)
    have hrest := ih (fun x hx => h x (List.mem_cons_of_mem _ hx))
    simp only [digitsNumber, List.length_cons, pow_succ]
    have hpos : 0 < 10 ^ ds.length := Nat.pow_pos (by norm_num)
    nlinarith

theorem takeWhile_filter_self (p : Char → Bool) (l : List Char) :
    (l.filter p).takeWhile p = l.filter p := by
  rw [List.takeWhile_eq_self_iff]
  intro c hc
  exact (List.mem_filter.mp hc).2

/-- C19: for a salary text with at least one and at most 15 decimal digit characters, the
number formatSalary hands to the currency formatter is the non-negative integer whose
decimal digits are the digit characters of the salary in their original order, every
other character deleted; '₹10,00,000' gives 1000000. -/
theorem formatSalary_number (salary : String)
    (hmin : 1 ≤ (salary.data.filter isDigit).length)
    (hmax : (salary.data.filter isDigit).length ≤ 15) :
    parseInt (stripNonDigits salary)
        = .finite (digitsNumber ((salary.data.filter isDigit).map (fun c => c.toNat - 48)))
      ∧ (∀ format : JSNumber → String,
          formatSalary format (some salary)
            = .ok (format (.finite
                (digitsNumber ((salary.data.filter isDigit).map (fun c => c.toNat - 48))))))
      ∧ parseInt (stripNonDigits "₹10,00,000") = .finite 1000000 := by
  have hne : salary.data.filter isDigit ≠ [] := by
    intro h
    rw [h] at hmin
    simp at hmin
  have hdig : ∀ d ∈ (salary.data.filter isDigit).map (fun c => c.toNat - 48), d ≤ 9 := by
    intro d hd
    obtain ⟨c, hc, rfl⟩ := List.mem_map.mp hd
    have := (List.mem_filter.mp hc).2
    simp only [isDigit, decide_eq_true_eq] at this
    omega
  have hlt : digitsNumber ((salary.data.filter isDigit).map (fun c => c.toNat - 48))
      < 2 ^ 53 := by
    have h1 := digitsNumber_lt _ hdig
    rw [List.length_map] at h1
    have h2 : 10 ^ (salary.data.filter isDigit).length ≤ 10 ^ 15 :=
      Nat.pow_le_pow_right (by norm_num) hmax
    have h3 : (10 : Nat) ^ 15 < 2 ^ 53 := by norm_num
    omega
  have hparse : parseInt (stripNonDigits salary)
      = .finite (digitsNumber ((salary.data.filter isDigit).map (fun c => c.toNat - 48))) := by
    simp only [parseInt, stripNonDigits, takeWhile_filter_self, hne, if_false,
      decimalValue_eq, roundToDouble, hlt, if_true]
  refine ⟨hparse, fun format => ?_, by decide⟩
  simp only [formatSalary, hparse]

theorem formatSalary_number_witness :
    parseInt (stripNonDigits "Rs. 85,000 per month")
        = .finite (digitsNumber [8, 5, 0, 0, 0])
      ∧ parseInt (stripNonDigits "₹10,00,000") = .finite 1000000 :=
  ⟨(formatSalary_number "Rs. 85,000 per month" (by decide) (by decide)).1.trans (by decide),
    (formatSalary_number "Rs. 85,000 per month" (by decide) (by decide)).2.2⟩

/-! ## Client application: the lines of a form field -/

theorem splitLines_ne_nil (cs : List Char) : splitLines cs ≠ [] := by
  cases cs with
  | nil => simp [splitLines]
  | cons c cs =>
    simp only [splitLines]
    split
    · simp
    · split <;> simp

theorem splitLines_intercalate (cs : List Char) :
    List.intercalate ['\n'] (splitLines cs) = cs := by
  induction cs with
  | nil => simp [splitLines, List.intercalate]
  | cons c cs ih =>
    simp only [splitLines]
    cases hs : splitLines cs with
    | nil => exact absurd hs (splitLines_ne_nil cs)
    | cons piece pieces =>
      rw [hs] at ih
      by_cases hc : c = '\n'
      · subst hc
        simp only [if_true]
        simp only [List.intercalate, List.intersperse, List.flatten] at ih ⊢
        simp [ih]
      · simp only [hc, if_false]
        simp only [List.intercalate] at ih ⊢
        cases pieces with
        | nil =>
          simp [List.intersperse, List.flatten] at ih ⊢
          exact ih
        | cons p ps =>
          simp [List.intersperse, List.flatten] at ih ⊢
          exact ih

theorem splitLines_no_newline (cs : List Char) :
    ∀ piece ∈ splitLines cs, '\n' ∉ piece := by
  induction cs with
  | nil => simp [splitLines]
  | cons c cs ih =>
    simp only [splitLines]
    by_cases hc : c = '\n'
    · simp only [hc, if_true, List.mem_cons]
      rintro piece (rfl | h)
      · simp
      · exact ih piece h
    · simp only [hc, if_false]
      cases hs : splitLines cs with
      | nil => exact absurd hs (splitLines_ne_nil cs)
      | cons p ps =>
        rw [hs] at ih
        simp only [List.mem_cons]
        rintro piece (rfl | h)
        · intro hmem
          rcases List.mem_cons.mp hmem with h' | h'
          · exact hc h'.symm
          · exact ih p (List.mem_cons_self _ _) h'
        · exact ih piece (List.mem_cons_of_mem _ h)

theorem splitLines_subset (cs : List Char) :
    ∀ piece ∈ splitLines cs, ∀ c ∈ piece, c ∈ cs := by
  induction cs with
  | nil => simp [splitLines]
  | cons c cs ih =>
    simp only [splitLines]
    by_cases hc : c = '\n'
    · simp only [hc, if_true, List.mem_cons]
      rintro piece (rfl | h) x hx
      · simp at hx
      · exact Or.inr (ih piece h x hx)
    · simp only [hc, if_false]
      cases hs : splitLines cs with
      | nil => exact absurd hs (splitLines_ne_nil cs)
      | cons p ps =>
        rw [hs] at ih
        simp only [List.mem_cons]
        rintro piece (rfl | h) x hx
        · rcases List.mem_cons.mp hx with h' | h'
          · exact Or.inl h'
          · exact Or.inr (ih p (List.mem_cons_self _ _) x h')
        · exact Or.inr (ih piece (List.mem_cons_of_mem _ h) x hx)

theorem head?_dropWhile_false (p : Char → Bool) (l : List Char) (c : Char)
    (h : (l.dropWhile p).head? = some c) : p c = false := by
  have := List.head?_dropWhile_not p l
  rw [h] at this
  exact this

/-- What `trim` does: it cuts a run of white space from the front and one from the back,
and what is left neither starts nor ends with white space. -/
theorem trimChars_spec (cs : List Char) :
    ∃ front back : List Char,
      cs = front ++ trimChars cs ++ back
        ∧ (∀ c ∈ front, isWhiteSpace c = true) ∧ (∀ c ∈ back, isWhiteSpace c = true)
        ∧ (∀ c, (trimChars cs).head? = some c → isWhiteSpace c = false)
        ∧ (∀ c, (trimChars cs).getLast? = some c → isWhiteSpace c = false) := by
  have hfront : cs = cs.takeWhile isWhiteSpace ++ cs.dropWhile isWhiteSpace :=
    (List.takeWhile_append_dropWhile isWhiteSpace cs).symm
  have hback : cs.dropWhile isWhiteSpace
      = trimChars cs ++ ((cs.dropWhile isWhiteSpace).reverse.takeWhile isWhiteSpace).reverse := by
    have := congrArg List.reverse
      (List.takeWhile_append_dropWhile isWhiteSpace (cs.dropWhile isWhiteSpace).reverse)
    rw [List.reverse_append, List.reverse_reverse] at this
    exact this.symm
  refine ⟨cs.takeWhile isWhiteSpace,
    ((cs.dropWhile isWhiteSpace).reverse.takeWhile isWhiteSpace).reverse, ?_, ?_, ?_, ?_, ?_⟩
  · rw [List.append_assoc, ← hback]; exact hfront
  · intro c hc
    exact (List.mem_takeWhile_imp hc)
  · intro c hc
    exact (List.mem_takeWhile_imp (List.mem_reverse.mp hc))
  · intro c hc
    cases htrim : trimChars cs with
    | nil => rw [htrim] at hc; simp at hc
    | cons x xs =>
      rw [htrim] at hc hback
      simp only [List.head?_cons, Option.some.injEq] at hc
      subst hc
      apply head?_dropWhile_false isWhiteSpace cs
      rw [hback]
      rfl
  · intro c hc
    unfold trimChars at hc
    rw [List.getLast?_reverse] at hc
    exact head?_dropWhile_false isWhiteSpace _ c hc

theorem trimChars_all_whiteSpace (cs : List Char) (h : ∀ c ∈ cs, isWhiteSpace c = true) :
    trimChars cs = [] := by
  have : cs.dropWhile isWhiteSpace = [] := by
    rw [List.dropWhile_eq_nil_iff]
    exact h
  simp [trimChars, this]

/-- C20: the sequence the job-post form sends for its responsibilities field, and for its
qualifications field, is the field's newline-separated lines (pieces without a line feed
that, joined by line feeds, give the field back), each trimmed of leading and trailing
white space, the empty results removed, in the original order.  Hence no element sent is
empty, none starts or ends with white space, and a field that is empty or holds only
white space and line feeds sends the empty sequence. -/
theorem fieldLines_spec (form : JobForm) (user : UserView) (field : String) :
    (jobPostBody form user).responsibilities = fieldLines form.responsibilities
      ∧ (jobPostBody form user).qualifications = fieldLines form.qualifications
      ∧ fieldLines field =
          ((splitLines field.data).map (fun piece => trim ⟨piece⟩)).filter
            (fun s => decide (s ≠ ""))
      ∧ List.intercalate ['\n'] (splitLines field.data) = field.data
      ∧ (∀ piece ∈ splitLines field.data, '\n' ∉ piece)
      ∧ (∀ piece : List Char, ∃ front back : List Char,
          piece = front ++ (trim ⟨piece⟩).data ++ back
            ∧ (∀ c ∈ front, isWhiteSpace c = true) ∧ (∀ c ∈ back, isWhiteSpace c = true))
      ∧ (fieldLines field).Sublist ((splitLines field.data).map (fun piece => trim ⟨piece⟩))
      ∧ (∀ line ∈ fieldLines field,
          line ≠ ""
            ∧ (∀ c, line.data.head? = some c → isWhiteSpace c = false)
            ∧ (∀ c, line.data.getLast? = some c → isWhiteSpace c = false))
      ∧ ((∀ c ∈ field.data, isWhiteSpace c = true) → fieldLines field = []) := by
  refine ⟨rfl, rfl, rfl, splitLines_intercalate _, splitLines_no_newline _, ?_,
    List.filter_sublist _, ?_, ?_⟩
  · intro piece
    obtain ⟨front, back, h, hf, hb, -, -⟩ := trimChars_spec piece
    exact ⟨front, back, h, hf, hb⟩
  · intro line hline
    obtain ⟨hmem, hne⟩ := List.mem_filter.mp hline
    obtain ⟨piece, -, rfl⟩ := List.mem_map.mp hmem
    obtain ⟨-, -, -, -, -, hhead, hlast⟩ := trimChars_spec piece
    exact ⟨by simpa using hne, hhead, hlast⟩
  · intro hws
    unfold fieldLines
    rw [List.filter_eq_nil_iff]
    intro line hline
    obtain ⟨piece, hpiece, rfl⟩ := List.mem_map.mp hline
    have : trimChars piece = [] :=
      trimChars_all_whiteSpace piece
        (fun c hc => hws c (splitLines_subset field.data piece hpiece c hc))
    simp [trim, this]

/-! ## Client application: the salary of an accepted job -/

theorem createJob_accepted_salary (s : Store) (now : Nat) (body : JobBody)
    (h : (createJob s now body).1.status = 201) :
    ∃ job : Job, createJob s now body = (⟨201, .job job⟩, { s with jobs := s.jobs ++ [job] })
      ∧ job.salary = body.salary := by
  by_cases hvalid : body.invalidPaths = []
  · by_cases hdup : (s.jobs.any fun job =>
        decide (job._id = (body._id.bind castObjectId).getD (freshId s))) = true
    · simp [createJob, hvalid, hdup, failure] at h
    · simp only [createJob, hvalid, if_true, hdup, if_false]
      exact ⟨_, rfl, rfl⟩
  · simp [createJob, hvalid, failure] at h

theorem parseInt_no_digit (text : String) (h : text.data.filter isDigit = []) :
    parseInt (stripNonDigits text) = .nan := by
  simp [parseInt, stripNonDigits, h]

/-- C21 fails on the code: the create-job handler accepts and stores a job whose salary is
absent, and one whose salary is a text without a digit (the empty text the form sends when
the field is left blank, or "Negotiable"); on the first, `formatSalary(job.salary)` throws
instead of completing, on the others the number it hands to the formatter is not-a-number.
In general a stored job carries the salary of its body unchanged, the salary plays no part
in validation, an absent salary makes `formatSalary` throw and a text without a digit makes
it format not-a-number. -/
theorem formatSalary_accepted_job_fails (format : JSNumber → String) :
    (∃ (job : Job) (s' : Store),
        createJob Store.empty 7
            ⟨some "Backend Engineer", some "Acme", some "Pune", some "Full-time",
              some "Build it", [], [], none, none, none, none⟩ = (⟨201, .job job⟩, s')
          ∧ job ∈ s'.jobs ∧ job.salary = none
          ∧ formatSalary format job.salary
              = .error "TypeError: Cannot read properties of undefined (reading 'replace')")
      ∧ (∃ (job : Job) (s' : Store),
          createJob Store.empty 7
              (jobPostBody ⟨"Backend Engineer", "Acme", "Pune", "Full-time", "Build it", "", "",
                ""⟩ ⟨1, "Alice", "alice@acme.io", "employer"⟩) = (⟨201, .job job⟩, s')
            ∧ job ∈ s'.jobs ∧ job.salary = some ""
            ∧ formatSalary format job.salary = .ok (format .nan))
      ∧ (∃ (job : Job) (s' : Store),
          createJob Store.empty 7
              (jobPostBody ⟨"Backend Engineer", "Acme", "Pune", "Full-time", "Build it", "", "",
                "Negotiable"⟩ ⟨1, "Alice", "alice@acme.io", "employer"⟩)
              = (⟨201, .job job⟩, s')
            ∧ job ∈ s'.jobs ∧ job.salary = some "Negotiable"
            ∧ formatSalary format job.salary = .ok (format .nan))
      ∧ (∀ (s : Store) (now : Nat) (body : JobBody), (createJob s now body).1.status = 201 →
          ∃ job : Job,
            createJob s now body = (⟨201, .job job⟩, { s with jobs := s.jobs ++ [job] })
              ∧ job.salary = body.salary)
      ∧ (∀ (body : JobBody) (salary : Option String),
          ({ body with salary := salary } : JobBody).invalidPaths = body.invalidPaths)
      ∧ (∃ message, formatSalary format none = .error message)
      ∧ (∀ text : String, text.data.filter isDigit = [] →
          formatSalary format (some text) = .ok (format .nan)) := by
  refine ⟨⟨⟨1, "Backend Engineer", "Acme", "Pune", "Full-time", "Build it", [], [], none, 7,
        none⟩,
      ⟨[], [⟨1, "Backend Engineer", "Acme", "Pune", "Full-time", "Build it", [], [], none, 7,
        none⟩], []⟩, by decide, by decide, rfl, rfl⟩,
    ⟨⟨1, "Backend Engineer", "Acme", "Pune", "Full-time", "Build it", [], [], some "", 7,
        some 1⟩,
      ⟨[], [⟨1, "Backend Engineer", "Acme", "Pune", "Full-time", "Build it", [], [], some "", 7,
        some 1⟩], []⟩, by decide, by decide, rfl, ?_⟩,
    ⟨⟨1, "Backend Engineer", "Acme", "Pune", "Full-time", "Build it", [], [],
        some "Negotiable", 7, some 1⟩,
      ⟨[], [⟨1, "Backend Engineer", "Acme", "Pune", "Full-time", "Build it", [], [],
        some "Negotiable", 7, some 1⟩], []⟩, by decide, by decide, rfl, ?_⟩,
    createJob_accepted_salary, fun _ _ => rfl, ⟨_, rfl⟩, fun text h => ?_⟩
  · simp only [formatSalary, parseInt_no_digit "" (by decide)]
  · simp only [formatSalary, parseInt_no_digit "Negotiable" (by decide)]
  · simp only [formatSalary, parseInt_no_digit text h]

end JobBoard
